import Mathlib

/-!
Shallow embedding of the purchase-order / inventory service of the
repository (`app/services/purchase_order_service.py`,
`app/models/tables.py`, and the inventory endpoints of `app/main.py`).

Database tables are lists of records and the SQLAlchemy session is
explicit state passing: an operation returns `Except Err (DB × result)`.
`Except.error` models a Python exception raised before `db.commit()` —
the request-scoped session is closed without committing (`get_db` in
`app/db/session.py`), so the persistent store keeps its previous state.

Python string helpers (`str.strip`, `str.upper`, string `<`) are
re-implemented structurally over `String.data` so that every definition
evaluates inside the kernel.
-/

namespace PMS

/-- Model of the whitespace class removed by Python `str.strip()`
(ASCII whitespace; the repository only strips ASCII input here). -/
def isPySpace (c : Char) : Bool :=
  c = ' ' || c = '\t' || c = '\n' || c = '\r' || c = '\x0b' || c = '\x0c'

/-- Model of Python `str.strip()`. -/
def pyStrip (s : String) : String :=
  ⟨((s.data.dropWhile isPySpace).reverse.dropWhile isPySpace).reverse⟩

/-- Model of Python `str.upper()` (ASCII range, which covers the status
strings this service uppercases). -/
def pyUpper (s : String) : String :=
  ⟨s.data.map Char.toUpper⟩

/-- Python string `<`: lexicographic comparison of code points. -/
def charListLt : List Char → List Char → Bool
  | [], [] => false
  | [], _ :: _ => true
  | _ :: _, [] => false
  | a :: as, b :: bs =>
    if a.toNat < b.toNat then true
    else if b.toNat < a.toNat then false
    else charListLt as bs

/-- Python string `<` on `String`. -/
def strLt (a b : String) : Bool :=
  charListLt a.data b.data

/-! ### Boolean order combinators

Python's `sorted(..., key=...)` sorts by lexicographic tuple comparison.
The sort keys used by `_line_signature_from_payload` are injective, so
the sorted list is the unique ordered arrangement; we build the order as
a lexicographic chain of boolean comparators and prove just enough facts
(totality, transitivity, antisymmetry) to identify any two sorts of
permuted inputs. -/

/-- A boolean relation that is a strict total order. -/
structure StrictFacts {α : Type _} (lt : α → α → Bool) : Prop where
  asymm : ∀ a b, lt a b = true → lt b a = false
  trans : ∀ a b c, lt a b = true → lt b c = true → lt a c = true
  tri : ∀ a b, lt a b = true ∨ a = b ∨ lt b a = true

/-- A boolean relation that is a total order (reflexive-total,
transitive, antisymmetric). -/
structure TotalFacts {α : Type _} (le : α → α → Bool) : Prop where
  total : ∀ a b, le a b = true ∨ le b a = true
  trans : ∀ a b c, le a b = true → le b c = true → le a c = true
  antisymm : ∀ a b, le a b = true → le b a = true → a = b

/-- Reflexive closure of a strict comparator. -/
def leOf {α : Type _} [DecidableEq α] (lt : α → α → Bool) (a b : α) : Bool :=
  lt a b || decide (a = b)

theorem leOf_facts {α : Type _} [DecidableEq α] {lt : α → α → Bool}
    (h : StrictFacts lt) : TotalFacts (leOf lt) := by
  constructor
  · intro a b
    rcases h.tri a b with hab | rfl | hba
    · exact Or.inl (by simp [leOf, hab])
    · exact Or.inl (by simp [leOf])
    · exact Or.inr (by simp [leOf, hba])
  · intro a b c hab hbc
    simp only [leOf, Bool.or_eq_true, decide_eq_true_eq] at hab hbc ⊢
    rcases hab with hab | rfl
    · rcases hbc with hbc | rfl
      · exact Or.inl (h.trans _ _ _ hab hbc)
      · exact Or.inl hab
    · exact hbc
  · intro a b hab hba
    simp only [leOf, Bool.or_eq_true, decide_eq_true_eq] at hab hba
    rcases hab with hab | rfl
    · rcases hba with hba | rfl
      · exact absurd hba (by simp [h.asymm _ _ hab])
      · rfl
    · rfl

/-- Lexicographic combination: strict comparator on the first component,
total comparator on the second. -/
def lexLe {α β : Type _} [DecidableEq α] (lt : α → α → Bool) (le : β → β → Bool)
    (x y : α × β) : Bool :=
  if x.1 = y.1 then le x.2 y.2 else lt x.1 y.1

theorem lexLe_facts {α β : Type _} [DecidableEq α] {lt : α → α → Bool}
    {le : β → β → Bool} (hlt : StrictFacts lt) (hle : TotalFacts le) :
    TotalFacts (lexLe lt le) := by
  constructor
  · intro x y
    by_cases hxy : x.1 = y.1
    · have hyx : y.1 = x.1 := hxy.symm
      rcases hle.total x.2 y.2 with h | h
      · exact Or.inl (by rw [lexLe, if_pos hxy]; exact h)
      · exact Or.inr (by rw [lexLe, if_pos hyx]; exact h)
    · have hyx : ¬ y.1 = x.1 := fun hc => hxy hc.symm
      rcases hlt.tri x.1 y.1 with h | h | h
      · exact Or.inl (by rw [lexLe, if_neg hxy]; exact h)
      · exact absurd h hxy
      · exact Or.inr (by rw [lexLe, if_neg hyx]; exact h)
  · intro x y z hxy hyz
    rw [lexLe] at hxy hyz ⊢
    by_cases h1 : x.1 = y.1
    · by_cases h2 : y.1 = z.1
      · rw [if_pos h1] at hxy
        rw [if_pos h2] at hyz
        rw [if_pos (h1.trans h2)]
        exact hle.trans _ _ _ hxy hyz
      · rw [if_neg h2] at hyz
        rw [if_neg (fun hc : x.1 = z.1 => h2 (h1.symm.trans hc)), h1]
        exact hyz
    · by_cases h2 : y.1 = z.1
      · rw [if_neg h1] at hxy
        rw [if_neg (fun hc : x.1 = z.1 => h1 (hc.trans h2.symm)), ← h2]
        exact hxy
      · rw [if_neg h1] at hxy
        rw [if_neg h2] at hyz
        have hxz := hlt.trans _ _ _ hxy hyz
        have hne : ¬ x.1 = z.1 := by
          intro hc
          rw [hc] at hxy
          have := hlt.asymm _ _ hyz
          rw [this] at hxy
          exact Bool.false_ne_true hxy
        rw [if_neg hne]
        exact hxz
  · intro x y hxy hyx
    rw [lexLe] at hxy hyx
    by_cases h1 : x.1 = y.1
    · rw [if_pos h1] at hxy
      rw [if_pos h1.symm] at hyx
      exact Prod.ext h1 (hle.antisymm _ _ hxy hyx)
    · rw [if_neg h1] at hxy
      rw [if_neg (fun hc : y.1 = x.1 => h1 hc.symm)] at hyx
      have := hlt.asymm _ _ hxy
      rw [this] at hyx
      exact absurd hyx Bool.false_ne_true

/-- Strict comparator on `Bool`: `false < true` (Python tuple key
`x[0] is None` sorts `False` first). -/
def boolLt (a b : Bool) : Bool :=
  !a && b

theorem boolLt_facts : StrictFacts boolLt := by
  constructor
  · decide
  · decide
  · decide

/-- Strict comparator on `Int`. -/
def intLt (a b : Int) : Bool :=
  decide (a < b)

theorem intLt_facts : StrictFacts intLt := by
  constructor
  · intro a b h
    simp only [intLt, decide_eq_true_eq] at h
    simp [intLt, le_of_lt h]
  · intro a b c hab hbc
    simp only [intLt, decide_eq_true_eq] at hab hbc ⊢
    exact lt_trans hab hbc
  · intro a b
    rcases lt_trichotomy a b with h | h | h
    · exact Or.inl (by simp [intLt, h])
    · exact Or.inr (Or.inl h)
    · exact Or.inr (Or.inr (by simp [intLt, h]))

theorem charListLt_asymm : ∀ a b, charListLt a b = true → charListLt b a = false := by
  intro a
  induction a with
  | nil => intro b h; cases b with
    | nil => simp [charListLt] at h
    | cons c cs => simp [charListLt]
  | cons c cs ih =>
    intro b h
    cases b with
    | nil => simp [charListLt] at h
    | cons d ds =>
      simp only [charListLt] at h ⊢
      by_cases hcd : c.toNat < d.toNat
      · have : ¬ d.toNat < c.toNat := by
          intro hdc
          exact absurd (lt_trans hcd hdc) (lt_irrefl _)
        simp [this, hcd]
      · by_cases hdc : d.toNat < c.toNat
        · simp [hcd, hdc] at h
        · simp only [hcd, if_false, hdc] at h
          simp [hdc, hcd, ih ds h]

theorem charListLt_trans :
    ∀ a b c, charListLt a b = true → charListLt b c = true → charListLt a c = true := by
  intro a
  induction a with
  | nil =>
    intro b c hab hbc
    cases b with
    | nil => simp [charListLt] at hab
    | cons d ds =>
      cases c with
      | nil => simp [charListLt] at hbc
      | cons e es => simp [charListLt]
  | cons x xs ih =>
    intro b c hab hbc
    cases b with
    | nil => simp [charListLt] at hab
    | cons y ys =>
      cases c with
      | nil => simp [charListLt] at hbc
      | cons z zs =>
        simp only [charListLt] at hab hbc ⊢
        by_cases hxy : x.toNat < y.toNat
        · by_cases hyz : y.toNat < z.toNat
          · simp [lt_trans hxy hyz]
          · by_cases hzy : z.toNat < y.toNat
            · simp [hyz, hzy] at hbc
            · have hyzeq : y.toNat = z.toNat := le_antisymm (le_of_not_lt hzy) (le_of_not_lt hyz)
              simp [hyzeq ▸ hxy]
        · by_cases hyx : y.toNat < x.toNat
          · simp [hxy, hyx] at hab
          · have hxyeq : x.toNat = y.toNat := le_antisymm (le_of_not_lt hyx) (le_of_not_lt hxy)
            simp only [hxy, if_false, hyx] at hab
            by_cases hyz : y.toNat < z.toNat
            · simp [hxyeq ▸ hyz]
            · by_cases hzy : z.toNat < y.toNat
              · simp [hyz, hzy] at hbc
              · simp only [hyz, if_false, hzy] at hbc
                have h1 : ¬ x.toNat < z.toNat := by rw [hxyeq]; exact hyz
                have h2 : ¬ z.toNat < x.toNat := by rw [hxyeq]; exact hzy
                simp [h1, h2, ih ys zs hab hbc]

theorem charListLt_tri :
    ∀ a b, charListLt a b = true ∨ a = b ∨ charListLt b a = true := by
  intro a
  induction a with
  | nil => intro b; cases b with
    | nil => exact Or.inr (Or.inl rfl)
    | cons d ds => exact Or.inl (by simp [charListLt])
  | cons x xs ih =>
    intro b
    cases b with
    | nil => exact Or.inr (Or.inr (by simp [charListLt]))
    | cons y ys =>
      by_cases hxy : x.toNat < y.toNat
      · exact Or.inl (by simp [charListLt, hxy])
      · by_cases hyx : y.toNat < x.toNat
        · exact Or.inr (Or.inr (by simp [charListLt, hyx]))
        · have heq : x = y :=
            Char.ext (UInt32.ext (le_antisymm (le_of_not_lt hyx) (le_of_not_lt hxy)))
          rcases ih ys with h | rfl | h
          · exact Or.inl (by simp [charListLt, hxy, hyx, h])
          · exact Or.inr (Or.inl (by rw [heq]))
          · exact Or.inr (Or.inr (by
              subst heq
              simp [charListLt, hxy, h]))

theorem strLt_facts : StrictFacts strLt := by
  constructor
  · intro a b h
    exact charListLt_asymm _ _ h
  · intro a b c hab hbc
    exact charListLt_trans _ _ _ hab hbc
  · intro a b
    rcases charListLt_tri a.data b.data with h | h | h
    · exact Or.inl h
    · refine Or.inr (Or.inl ?_)
      cases a; cases b
      exact congrArg String.mk (by simpa using h)
    · exact Or.inr (Or.inr h)

/-! ### Line signatures (`_line_signature_from_payload` / `_line_signature_from_order`)

A signature entry is the tuple `(item_id-or-none, item_name_free, maker,
quantity, note)` with the strings stripped; the list is sorted by the key
`(x[0] is None, x[0] or 0, x[1], x[2], x[3], x[4])`. -/

/-- One signature entry. -/
abbrev Sig := Option Int × String × String × Int × String

/-- Python sort key `(x[0] is None, x[0] or 0, x[1], x[2], x[3], x[4])`
(`x or 0` maps both `None` and `0` to `0`, which `Option.getD 0` also does). -/
def sigKey (s : Sig) : Bool × Int × String × String × Int × String :=
  (s.1.isNone, s.1.getD 0, s.2.1, s.2.2.1, s.2.2.2.1, s.2.2.2.2)

/-- Lexicographic tuple comparison used by Python `sorted` on the key. -/
def keyLe : Bool × Int × String × String × Int × String →
    Bool × Int × String × String × Int × String → Bool :=
  lexLe boolLt (lexLe intLt (lexLe strLt (lexLe strLt (lexLe intLt (leOf strLt)))))

theorem keyLe_facts : TotalFacts keyLe :=
  lexLe_facts boolLt_facts
    (lexLe_facts intLt_facts
      (lexLe_facts strLt_facts
        (lexLe_facts strLt_facts
          (lexLe_facts intLt_facts (leOf_facts strLt_facts)))))

theorem sigKey_injective : ∀ a b : Sig, sigKey a = sigKey b → a = b := by
  rintro ⟨o₁, n₁, m₁, q₁, t₁⟩ ⟨o₂, n₂, m₂, q₂, t₂⟩ h
  simp only [sigKey, Prod.mk.injEq] at h
  obtain ⟨hnone, hval, h3, h4, h5, h6⟩ := h
  have ho : o₁ = o₂ := by
    cases o₁ with
    | none =>
      cases o₂ with
      | none => rfl
      | some v => simp at hnone
    | some v =>
      cases o₂ with
      | none => simp at hnone
      | some w => simpa using hval
  simp [ho, h3, h4, h5, h6]

/-- The sort relation on signature entries. -/
def sigRel (a b : Sig) : Prop :=
  keyLe (sigKey a) (sigKey b) = true

instance : DecidableRel sigRel := fun _ _ =>
  inferInstanceAs (Decidable (_ = true))

instance : IsTotal Sig sigRel :=
  ⟨fun a b => keyLe_facts.total (sigKey a) (sigKey b)⟩

instance : IsTrans Sig sigRel :=
  ⟨fun _ _ _ hab hbc => keyLe_facts.trans _ _ _ hab hbc⟩

instance : IsAntisymm Sig sigRel :=
  ⟨fun a b hab hba => sigKey_injective a b (keyLe_facts.antisymm _ _ hab hba)⟩

/-- Python `sorted(signature, key=...)`: the key is injective on entries,
so the sorted list is the unique ordered arrangement and any stable sort
computes it. -/
def sortSignature (l : List Sig) : List Sig :=
  List.insertionSort sigRel l

/-- Two sorts of permuted inputs agree (key injectivity gives antisymmetry). -/
theorem sortSignature_eq_of_perm {l₁ l₂ : List Sig} (h : l₁.Perm l₂) :
    sortSignature l₁ = sortSignature l₂ := by
  refine List.eq_of_perm_of_sorted (r := sigRel) ?_ ?_ ?_
  · exact ((List.perm_insertionSort sigRel l₁).trans h).trans
      (List.perm_insertionSort sigRel l₂).symm
  · exact List.sorted_insertionSort sigRel l₁
  · exact List.sorted_insertionSort sigRel l₂

/-! ### Data model (`app/models/tables.py`)

Only the columns the order service reads or writes are modelled;
presentation-only columns (timestamps the core never branches on,
contact data, shelf/usage tags, …) are omitted.  `NOT NULL` string
columns that the service always coalesces with `or ""` are plain
`String`; nullable columns are `Option`. -/

inductive OrderStatus
  | DRAFT
  | CONFIRMED
  | SENT
  | WAITING
  | RECEIVED
  | CANCELLED
deriving DecidableEq

inductive ReqStatus
  | PENDING
  | CONVERTED
  | REJECTED
deriving DecidableEq

inductive TxType
  | receipt
  | issue
  | adjust
deriving DecidableEq

structure Supplier where
  id : Int
  name : String
deriving DecidableEq

structure Item where
  id : Int
  item_code : String
  name : String
  department : Option String
  manufacturer : Option String
  reorder_point : Int
  default_order_quantity : Int
  unit_price : Option Int
  supplier_id : Option Int
deriving DecidableEq

structure ItemSupplier where
  item_id : Int
  supplier_id : Int
  unit_price : Option Int
deriving DecidableEq

structure InventoryItem where
  item_id : Int
  quantity_on_hand : Int
deriving DecidableEq

structure InventoryTransaction where
  item_id : Int
  tx_type : TxType
  delta : Int
  reason : String
  note : String
  created_by : String
deriving DecidableEq

/-- `created_at` is an abstract timestamp (seconds); the duplicate window
compares it against `now - window`. -/
structure PurchaseOrder where
  id : Int
  supplier_id : Int
  department : String
  ordered_by_user : String
  status : OrderStatus
  created_at : Int
deriving DecidableEq

structure PurchaseOrderLine where
  id : Int
  purchase_order_id : Int
  item_id : Option Int
  item_name_free : String
  maker : String
  quantity : Int
  received_quantity : Int
  note : String
deriving DecidableEq

structure PurchaseOrderDocument where
  purchase_order_id : Int
deriving DecidableEq

structure UnmanagedOrderRequest where
  id : Int
  requested_at : Int
  status : ReqStatus
  purchase_order_id : Option Int
  purchase_order_line_id : Option Int
  staged_supplier_id : Option Int
  staged_at : Option Int
  acknowledged_at : Option Int
deriving DecidableEq

/-- Delivery dates are carried as their ISO `YYYY-MM-DD` string. -/
structure PurchaseResult where
  delivery_date : String
  supplier_id : Int
  delivery_note_number : String
  item_id : Option Int
  item_name_free : Option String
  quantity : Int
  unit_price : Option Int
  amount : Option Int
  purchase_month : Option String
  note : String
  source_order_id : Int
  source_line_id : Int
deriving DecidableEq

structure UnitPriceHistory where
  item_id : Int
  supplier_id : Int
  old_unit_price : Option Int
  new_unit_price : Int
  changed_by : Option String
  reference_id : Int
deriving DecidableEq

deriving instance DecidableEq for Except

/-- The relational store. -/
structure DB where
  suppliers : List Supplier
  items : List Item
  itemSuppliers : List ItemSupplier
  inventory : List InventoryItem
  transactions : List InventoryTransaction
  orders : List PurchaseOrder
  orderLines : List PurchaseOrderLine
  documents : List PurchaseOrderDocument
  requests : List UnmanagedOrderRequest
  results : List PurchaseResult
  priceHistory : List UnitPriceHistory
deriving DecidableEq

/-- The distinct `PurchaseOrderError` messages raised by the operations
modelled here (`app/services/purchase_order_service.py`, and the
HTTP 400/404 errors of the inventory endpoints in `app/main.py`). -/
inductive Err
  | orderNotFound
  | invalidStatus
  | invalidTransition
  | cancelledNoReceipt
  | alreadyReceived
  | invalidStateForReceipt
  | missingDeliveryDate
  | badDeliveryDate
  | missingNoteNumber
  | negativeQuantity
  | unknownLine
  | overReceipt
  | nothingToReceive
  | emptySelection
  | supplierNotFound
  | notEligible
  | badQuantity
  | itemNotFound
  | inventoryNotFound
  | insufficientStock
  | zeroAdjust
deriving DecidableEq

/-! ### Shared helpers over the store -/

def findOrder (db : DB) (orderId : Int) : Option PurchaseOrder :=
  db.orders.find? (fun o => o.id == orderId)

/-- The lines of one order (`PurchaseOrderLine.purchase_order_id == order.id`). -/
def linesOf (db : DB) (orderId : Int) : List PurchaseOrderLine :=
  db.orderLines.filter (fun l => l.purchase_order_id == orderId)

def findInventory (db : DB) (itemId : Int) : Option InventoryItem :=
  db.inventory.find? (fun i => i.item_id == itemId)

def findItem (db : DB) (itemId : Int) : Option Item :=
  db.items.find? (fun i => i.id == itemId)

/-- `inv.quantity_on_hand if inv else 0`. -/
def onHandOf (db : DB) (itemId : Int) : Int :=
  match findInventory db itemId with
  | some inv => inv.quantity_on_hand
  | none => 0

def findItemSupplier (db : DB) (itemId supplierId : Int) : Option ItemSupplier :=
  db.itemSuppliers.find? (fun r => r.item_id == itemId && r.supplier_id == supplierId)

def supplierExists (db : DB) (supplierId : Int) : Bool :=
  db.suppliers.any (fun s => s.id == supplierId)

/-- Running sum of the ledger deltas of one item. -/
def sumDeltas (db : DB) (itemId : Int) : Int :=
  ((db.transactions.filter (fun t => t.item_id == itemId)).map
    (fun t => t.delta)).sum

/-- Python truthiness of a nullable integer id (`if line.item_id:`). -/
def truthyId : Option Int → Bool
  | some i => !(i == 0)
  | none => false

/-- `(updated_by or "").strip() or "system"`. -/
def defaultCreatedBy (updatedBy : String) : String :=
  if pyStrip updatedBy = "" then "system" else pyStrip updatedBy

/-! ### Status strings (`PurchaseOrderStatus` enum values) -/

def statusValue : OrderStatus → String
  | .DRAFT => "DRAFT"
  | .CONFIRMED => "CONFIRMED"
  | .SENT => "SENT"
  | .WAITING => "WAITING"
  | .RECEIVED => "RECEIVED"
  | .CANCELLED => "CANCELLED"

def allStatuses : List OrderStatus :=
  [.DRAFT, .CONFIRMED, .SENT, .WAITING, .RECEIVED, .CANCELLED]

/-- Membership test `normalized in {status.value for status in PurchaseOrderStatus}`,
returning the decoded status (the table stores the string; the embedding
stores the enum, the six values being distinct). -/
def statusOfString (s : String) : Option OrderStatus :=
  allStatuses.find? (fun st => decide (statusValue st = s))

/-- The `allowed` transition table of `update_order_status`
(lines 1250-1257 of the service). -/
def allowedTargets : OrderStatus → List OrderStatus
  | .DRAFT => [.CONFIRMED, .CANCELLED]
  | .CONFIRMED => [.SENT, .CANCELLED]
  | .SENT => [.WAITING, .CANCELLED]
  | .WAITING => [.RECEIVED, .CANCELLED]
  | .RECEIVED => []
  | .CANCELLED => []

/-! ### Inventory receipt posting

`receive_order_partial` (lines 1354-1371) and `_apply_receipt_inventory`
(lines 1513-1529) both: look the `InventoryItem` row up, create it with
quantity 0 when missing, add the incoming quantity, and append one
`receipt` ledger row whose `delta` is the incoming quantity. -/

def applyReceiptToInventory (db : DB) (itemId incoming : Int)
    (reason note createdBy : String) : DB :=
  let db' : DB :=
    match findInventory db itemId with
    | some _ => db
    | none => { db with inventory := db.inventory ++ [⟨itemId, 0⟩] }
  { db' with
    inventory := db'.inventory.map (fun inv =>
      if inv.item_id == itemId then
        { inv with quantity_on_hand := inv.quantity_on_hand + incoming }
      else inv),
    transactions := db'.transactions ++
      [⟨itemId, .receipt, incoming, reason, note, createdBy⟩] }

/-- `_apply_receipt_inventory`: for every line with a positive remaining
quantity, top its received quantity up to the ordered quantity and post
the remaining quantity into inventory for item-linked lines. -/
def applyFullReceipt (db : DB) (orderId : Int) (updatedBy : String) : DB :=
  (linesOf db orderId).foldl
    (fun db line =>
      let received := max 0 line.received_quantity
      let remaining := max 0 (line.quantity - received)
      if remaining ≤ 0 then db
      else
        let db := { db with orderLines := db.orderLines.map (fun x =>
          if x.id == line.id then { x with received_quantity := received + remaining }
          else x) }
        match line.item_id with
        | some iid =>
          if iid == 0 then db
          else
            applyReceiptToInventory db iid remaining
              ("発注#" ++ toString orderId ++ " 納品計上") "発注管理"
              (defaultCreatedBy updatedBy)
        | none => db)
    db

/-- Result dictionary of `update_order_status` (`deleted` is only present
on cancellation in the source; here it is a flag, `false` elsewhere). -/
structure StatusResult where
  purchase_order_id : Int
  status : OrderStatus
  deleted : Bool
deriving DecidableEq

/-- `PurchaseOrderService.update_order_status` (lines 1239-1280).
Target normalisation is `strip().upper()`; an unknown status string
fails, a target equal to the current status is a successful no-op,
a target outside the transition table fails with the invalid-transition
error, `CANCELLED` deletes the order together with its lines and its
document (SQLAlchemy cascade) and resets every linked
`UnmanagedOrderRequest` to `PENDING` with cleared order/line links,
`RECEIVED` first applies the full-receipt inventory posting. -/
def update_order_status (db : DB) (orderId : Int) (targetStatus updatedBy : String) :
    Except Err (DB × StatusResult) :=
  match findOrder db orderId with
  | none => .error .orderNotFound
  | some order =>
    match statusOfString (pyUpper (pyStrip targetStatus)) with
    | none => .error .invalidStatus
    | some normalized =>
      if normalized = order.status then
        .ok (db, ⟨order.id, order.status, false⟩)
      else if ¬ normalized ∈ allowedTargets order.status then
        .error .invalidTransition
      else if normalized = .CANCELLED then
        .ok ({ db with
          requests := db.requests.map (fun r =>
            if r.purchase_order_id == some order.id then
              { r with
                status := .PENDING
                purchase_order_id := none
                purchase_order_line_id := none }
            else r),
          orders := db.orders.filter (fun o => !(o.id == order.id)),
          orderLines := db.orderLines.filter (fun l => !(l.purchase_order_id == order.id)),
          documents := db.documents.filter (fun d => !(d.purchase_order_id == order.id)) },
          ⟨order.id, .CANCELLED, true⟩)
      else
        let db :=
          if normalized = .RECEIVED then applyFullReceipt db order.id updatedBy else db
        .ok ({ db with orders := db.orders.map (fun o =>
            if o.id == order.id then { o with status := normalized } else o) },
          ⟨order.id, normalized, false⟩)

/-! ### Partial receiving (`PurchaseOrderService.receive_order_partial`, lines 1282-1488) -/

def digitsToNat (l : List Char) : Nat :=
  l.foldl (fun acc c => acc * 10 + (c.toNat - 48)) 0

def isLeapYear (y : Nat) : Bool :=
  (y % 4 == 0 && !(y % 100 == 0)) || (y % 400 == 0)

def daysInMonth (y m : Nat) : Nat :=
  if m = 2 then (if isLeapYear y then 29 else 28)
  else if m = 4 ∨ m = 6 ∨ m = 9 ∨ m = 11 then 30
  else 31

/-- Model of `datetime.date.fromisoformat` on the canonical `YYYY-MM-DD`
shape (the only shape the UI sends; other shapes Python may accept are
conservatively rejected, which no claim depends on). -/
def isIsoDate (s : String) : Bool :=
  match s.data with
  | [y1, y2, y3, y4, h1, m1, m2, h2, d1, d2] =>
    if h1 = '-' ∧ h2 = '-' ∧ ([y1, y2, y3, y4, m1, m2, d1, d2].all Char.isDigit) then
      let y := digitsToNat [y1, y2, y3, y4]
      let m := digitsToNat [m1, m2]
      let d := digitsToNat [d1, d2]
      decide (1 ≤ m ∧ m ≤ 12 ∧ 1 ≤ d ∧ d ≤ daysInMonth y m)
    else false
  | _ => false

/-- `delivery_date_parsed.strftime("%y%m")`: two-digit year then
two-digit month of a valid ISO date string. -/
def purchaseMonthOf (s : String) : Option String :=
  match s.data with
  | [_, _, y3, y4, _, m1, m2, _, _, _] => some ⟨[y3, y4, m1, m2]⟩
  | _ => none

/-- State threaded through the per-line loop of `receive_order_partial`:
the store, the order's lines after the loop (the session objects it
iterated and mutated), `processed_count`, and `processed_lines`. -/
structure LoopOut where
  db : DB
  lines : List PurchaseOrderLine
  processedCount : Nat
  processed : List (PurchaseOrderLine × Int)
deriving DecidableEq

/-- The quantity loop (lines 1326-1371).  `m` is `normalized_map` as an
association list; `[]` is the falsy empty dict, which switches every
line to its full remaining quantity.  Fully received lines are skipped
before any quantity check; a requested quantity above the remaining
balance raises (models the over-receipt `PurchaseOrderError`); processed
item-linked lines post a receipt into inventory. -/
def receiveLoop (m : List (Int × Int)) (updatedBy : String) (orderId : Int) :
    DB → List PurchaseOrderLine → Except Err LoopOut
  | db, [] => .ok ⟨db, [], 0, []⟩
  | db, line :: rest =>
    let received := max 0 line.received_quantity
    let remaining := max 0 (line.quantity - received)
    if remaining ≤ 0 then
      (receiveLoop m updatedBy orderId db rest).map
        (fun o => { o with lines := line :: o.lines })
    else
      let incomingOpt : Option Int :=
        if m.isEmpty then some remaining else m.lookup line.id
      match incomingOpt with
      | none =>
        (receiveLoop m updatedBy orderId db rest).map
          (fun o => { o with lines := line :: o.lines })
      | some incoming =>
        if incoming ≤ 0 then
          (receiveLoop m updatedBy orderId db rest).map
            (fun o => { o with lines := line :: o.lines })
        else if remaining < incoming then
          .error .overReceipt
        else
          let line' := { line with received_quantity := received + incoming }
          let db : DB := { db with orderLines := db.orderLines.map (fun x =>
            if x.id == line.id then line' else x) }
          let db : DB :=
            if truthyId line.item_id then
              applyReceiptToInventory db (line.item_id.getD 0) incoming
                ("発注#" ++ toString orderId ++ " 分納入庫")
                ("発注管理 明細#" ++ toString line.id)
                (defaultCreatedBy updatedBy)
            else db
          (receiveLoop m updatedBy orderId db rest).map
            (fun o => { o with
              lines := line' :: o.lines
              processedCount := o.processedCount + 1
              processed := (line', incoming) :: o.processed })

/-- Price/history/result handling for one processed line
(lines 1392-1480). -/
def pricingStep (order : PurchaseOrder) (parsedDate noteTrimmed : String)
    (priceMap : List (Int × Option Int)) (updatedBy : String)
    (db : DB) (entry : PurchaseOrderLine × Int) : DB :=
  let line := entry.1
  let incoming := entry.2
  if truthyId line.item_id then
    let iid := line.item_id.getD 0
    match findItem db iid with
    | none => db
    | some item =>
      let isRow := findItemSupplier db iid order.supplier_id
      let currentPrice : Option Int :=
        match isRow with
        | some r => r.unit_price
        | none => none
      let currentPrice : Option Int :=
        match currentPrice with
        | none => item.unit_price
        | some p => some p
      let overridePrice : Option Int :=
        match priceMap.lookup line.id with
        | some v => v
        | none => none
      let step : DB × Option Int :=
        match overridePrice with
        | some op =>
          if ¬ some op = currentPrice then
            let db : DB := { db with priceHistory := db.priceHistory ++
              [⟨iid, order.supplier_id, currentPrice, op,
                (if pyStrip updatedBy = "" then none else some (pyStrip updatedBy)),
                line.id⟩] }
            let db : DB :=
              match isRow with
              | some _ => { db with itemSuppliers := db.itemSuppliers.map (fun r =>
                  if r.item_id == iid && r.supplier_id == order.supplier_id then
                    { r with unit_price := some op }
                  else r) }
              | none => { db with itemSuppliers :=
                  db.itemSuppliers ++ [⟨iid, order.supplier_id, some op⟩] }
            (db, some op)
          else (db, currentPrice)
        | none => (db, currentPrice)
      let db := step.1
      let unitPrice := step.2
      let amount := unitPrice.getD 0 * incoming
      { db with results := db.results ++
        [⟨parsedDate, order.supplier_id, noteTrimmed, some iid, none, incoming,
          unitPrice, (if unitPrice ≠ none then some amount else none),
          purchaseMonthOf parsedDate, line.note, order.id, line.id⟩] }
  else
    let unitPrice : Option Int :=
      match priceMap.lookup line.id with
      | some v => v
      | none => none
    let amount : Option Int :=
      match unitPrice with
      | some p => some (p * incoming)
      | none => none
    let nameFree := pyStrip line.item_name_free
    { db with results := db.results ++
      [⟨parsedDate, order.supplier_id, noteTrimmed, none,
        (if nameFree = "" then none else some nameFree), incoming,
        unitPrice, amount, purchaseMonthOf parsedDate, line.note,
        order.id, line.id⟩] }

/-- Result dictionary of `receive_order_partial`. -/
structure ReceiveResult where
  purchase_order_id : Int
  status : OrderStatus
  fully_received : Bool
deriving DecidableEq

/-- Tail of `receive_order_partial` after the quantity loop
(lines 1373-1488): reject a no-op call, set the order status from the
all-received test over the order's (mutated) lines, run the pricing /
purchase-result phase over the processed lines, and build the result. -/
def receiveFinish (order : PurchaseOrder) (parsedDate noteTrimmed : String)
    (lineUnitPrices : List (Int × Option Int)) (updatedBy : String)
    (out : LoopOut) : Except Err (DB × ReceiveResult) :=
  if out.processedCount = 0 then .error .nothingToReceive
  else
    let allReceived := out.lines.all (fun l =>
      max 0 l.quantity ≤ max 0 l.received_quantity)
    let newStatus : OrderStatus := if allReceived then .RECEIVED else .WAITING
    let db1 : DB := { out.db with orders := out.db.orders.map (fun o =>
      if o.id == order.id then { o with status := newStatus } else o) }
    let db2 : DB :=
      if ¬ order.supplier_id = 0 ∧ ¬ out.processed.isEmpty then
        out.processed.foldl
          (pricingStep order parsedDate noteTrimmed lineUnitPrices updatedBy) db1
      else db1
    .ok (db2, ⟨order.id, newStatus, allReceived⟩)

/-- `PurchaseOrderService.receive_order_partial` (the `lineReceipts`
association list is Python's `line_receipts` dict, `[]` both for `None`
and for an empty dict — both are falsy and behave identically). -/
def receiveOrder (db : DB) (orderId : Int) (updatedBy : String)
    (lineReceipts : List (Int × Int)) (deliveryDate : Option String)
    (deliveryNoteNumber : Option String)
    (lineUnitPrices : List (Int × Option Int)) :
    Except Err (DB × ReceiveResult) :=
  match findOrder db orderId with
  | none => .error .orderNotFound
  | some order =>
    if order.status = .CANCELLED then .error .cancelledNoReceipt
    else if order.status = .RECEIVED then .error .alreadyReceived
    else if ¬ (order.status = .SENT ∨ order.status = .WAITING) then
      .error .invalidStateForReceipt
    else if pyStrip (deliveryDate.getD "") = "" then .error .missingDeliveryDate
    else if ¬ isIsoDate (pyStrip (deliveryDate.getD "")) then .error .badDeliveryDate
    else
      let parsedDate := pyStrip (deliveryDate.getD "")
      let noteTrimmed := pyStrip (deliveryNoteNumber.getD "")
      if noteTrimmed = "" then .error .missingNoteNumber
      else if lineReceipts.any (fun p => p.2 < 0) then .error .negativeQuantity
      else if ¬ lineReceipts.isEmpty ∧ lineReceipts.any (fun p =>
          !((linesOf db order.id).map (fun l => l.id)).contains p.1) then
        .error .unknownLine
      else
        match receiveLoop lineReceipts updatedBy order.id db (linesOf db order.id) with
        | .error e => .error e
        | .ok out => receiveFinish order parsedDate noteTrimmed lineUnitPrices updatedBy out

/-! ### Low-stock candidates (`build_low_stock_candidates`, lines 121-220)

The supplier-choice sublists of a candidate row are presentation data;
the embedding keeps the stock figures the claims are about. -/

structure Candidate where
  item_id : Int
  item_code : String
  department : String
  on_hand : Int
  reorder_point : Int
  gap : Int
  order_quantity : Int
deriving DecidableEq

def committedStatuses : List OrderStatus :=
  [.CONFIRMED, .SENT, .WAITING]

/-- Item ids on any line of an order in `{CONFIRMED, SENT, WAITING}`
(the SQL join of lines to orders, `item_id IS NOT NULL`). -/
def isCommittedItem (db : DB) (itemId : Int) : Bool :=
  db.orderLines.any (fun l =>
    l.item_id == some itemId &&
    db.orders.any (fun o =>
      o.id == l.purchase_order_id && committedStatuses.contains o.status))

/-- `ORDER BY items.item_code ASC` (ordering is irrelevant to membership). -/
def itemCodeRel (a b : Item) : Prop :=
  (strLt a.item_code b.item_code || decide (a.item_code = b.item_code)) = true

instance : DecidableRel itemCodeRel := fun _ _ =>
  inferInstanceAs (Decidable (_ = true))

def build_low_stock_candidates (db : DB) (department : String) : List Candidate :=
  let selectedDepartment := pyStrip department
  (List.insertionSort itemCodeRel db.items).filterMap (fun item =>
    if isCommittedItem db item.id then none
    else
      let onHand : Int := onHandOf db item.id
      let reorder : Int := item.reorder_point
      if reorder ≤ 0 then none
      else if reorder < onHand then none
      else
        let itemDept := pyStrip (item.department.getD "")
        if ¬ selectedDepartment = "" ∧ ¬ itemDept = selectedDepartment then none
        else
          let deptLabel : String :=
            if (item.department.getD "") = "" then "未設定" else item.department.getD ""
          let orderQty : Int :=
            max 1 (if item.default_order_quantity = 0 then 1
              else item.default_order_quantity)
          some ⟨item.id, item.item_code, deptLabel, onHand, reorder,
            onHand - reorder, orderQty⟩)

/-! ### Duplicate suppression and order creation
(`_find_recent_duplicate_order`, `_line_signature_from_*`,
`_allocate_reusable_order_id`, and the creation slice of `create_order`) -/

/-- A line of the request payload after `create_order`'s per-line
normalisation, restricted to the fields the persisted line and the
duplicate signature carry. -/
structure PayloadLine where
  item_id : Option Int
  item_name_free : String
  maker : String
  quantity : Int
  note : String
deriving DecidableEq

def sigOfPayloadLine (l : PayloadLine) : Sig :=
  (l.item_id, pyStrip l.item_name_free, pyStrip l.maker, l.quantity, pyStrip l.note)

/-- `_line_signature_from_payload`. -/
def signatureFromPayload (lines : List PayloadLine) : List Sig :=
  sortSignature (lines.map sigOfPayloadLine)

def sigOfOrderLine (l : PurchaseOrderLine) : Sig :=
  (l.item_id, pyStrip l.item_name_free, pyStrip l.maker, l.quantity, pyStrip l.note)

/-- `_line_signature_from_order`. -/
def signatureFromOrder (db : DB) (o : PurchaseOrder) : List Sig :=
  sortSignature ((linesOf db o.id).map sigOfOrderLine)

def DEFAULT_DUPLICATE_WINDOW_SECONDS : Int := 120

/-- `ORDER BY created_at DESC` over duplicate candidates. -/
def createdDescRel (a b : PurchaseOrder) : Prop :=
  decide (b.created_at ≤ a.created_at) = true

instance : DecidableRel createdDescRel := fun _ _ =>
  inferInstanceAs (Decidable (_ = true))

/-- `_find_recent_duplicate_order` (lines 1531-1563): search the
non-cancelled orders of the same supplier, department and ordering user
created at or after `now - max 1 window` for one whose line signature
equals the payload's. -/
def findRecentDuplicateOrder (db : DB) (now windowSeconds : Int)
    (supplierId : Int) (department orderedByUser : String)
    (lines : List PayloadLine) : Option PurchaseOrder :=
  let cutoff := now - max 1 windowSeconds
  let candidates := db.orders.filter (fun o =>
    o.supplier_id == supplierId &&
    decide (o.department = department) &&
    decide (o.ordered_by_user = orderedByUser) &&
    decide (cutoff ≤ o.created_at) &&
    !(o.status == OrderStatus.CANCELLED))
  let target := signatureFromPayload lines
  (List.insertionSort createdDescRel candidates).find?
    (fun c => decide (signatureFromOrder db c = target))

/-- `_allocate_reusable_order_id` inner loop over the ascending id list. -/
def allocFrom : List Int → Int → Int
  | [], expected => expected
  | i :: rest, expected =>
    if i = expected then allocFrom rest (expected + 1)
    else if expected < i then expected
    else allocFrom rest expected

def intAscRel (a b : Int) : Prop :=
  decide (a ≤ b) = true

instance : DecidableRel intAscRel := fun _ _ =>
  inferInstanceAs (Decidable (_ = true))

/-- `_allocate_reusable_order_id`: the lowest unused id from 1 up. -/
def allocateReusableOrderId (db : DB) : Int :=
  allocFrom (List.insertionSort intAscRel (db.orders.map (fun o => o.id))) 1

/-- Models the autoincrement primary key of `purchase_order_lines`. -/
def nextLineId (db : DB) : Int :=
  (db.orderLines.map (fun l => l.id)).foldl max 0 + 1

structure CreateResult where
  purchase_order_id : Int
  status : OrderStatus
  department : String
  reused : Bool
deriving DecidableEq

/-- The duplicate-suppression-and-creation slice of `create_order`
(lines 461-532), taking the already normalised line list: when a recent
duplicate exists its id is returned with `reused=true` and nothing is
written; otherwise a DRAFT order with the lowest unused id and one line
per payload line is inserted.  (Per-line item/supplier resolution and
unmanaged-request conversion sit before/after this slice and are
settled by other claims.) -/
def createOrderNormalized (db : DB) (now windowSeconds : Int) (supplierId : Int)
    (department orderedByUser : String) (lines : List PayloadLine) :
    DB × CreateResult :=
  match findRecentDuplicateOrder db now windowSeconds supplierId department
      orderedByUser lines with
  | some dup => (db, ⟨dup.id, dup.status, dup.department, true⟩)
  | none =>
    let oid := allocateReusableOrderId db
    let order : PurchaseOrder :=
      ⟨oid, supplierId, department, orderedByUser, .DRAFT, now⟩
    let base := nextLineId db
    let newLines := (List.enum lines).map (fun p =>
      ({ id := base + (p.1 : Int), purchase_order_id := oid,
         item_id := p.2.item_id, item_name_free := p.2.item_name_free,
         maker := p.2.maker, quantity := p.2.quantity,
         received_quantity := 0, note := p.2.note } : PurchaseOrderLine))
    ({ db with
        orders := db.orders ++ [order]
        orderLines := db.orderLines ++ newLines },
      ⟨oid, .DRAFT, department, false⟩)

/-! ### Unmanaged-request staging and listing -/

/-- `stage_unmanaged_requests` (lines 717-737): the selected requests
are those whose id is in `request_ids` and whose status is `PENDING`;
when fewer are found than ids were given, nothing is staged and the
not-eligible error is raised; otherwise each selected request gets the
chosen supplier and the staging timestamp. -/
def stage_unmanaged_requests (db : DB) (requestIds : List Int)
    (supplierId : Int) (now : Int) : Except Err (DB × Nat) :=
  if requestIds.isEmpty then .error .emptySelection
  else if ¬ supplierExists db supplierId then .error .supplierNotFound
  else
    let selected := db.requests.filter (fun r =>
      decide (r.id ∈ requestIds) && decide (r.status = ReqStatus.PENDING))
    if ¬ selected.length = requestIds.length then .error .notEligible
    else
      .ok ({ db with requests := db.requests.map (fun r =>
          if decide (r.id ∈ requestIds) && decide (r.status = ReqStatus.PENDING) then
            { r with staged_supplier_id := some supplierId, staged_at := some now }
          else r) },
        selected.length)

/-- `ORDER BY requested_at DESC, id DESC`. -/
def requestedDescRel (a b : UnmanagedOrderRequest) : Prop :=
  decide (b.requested_at < a.requested_at ∨
    (b.requested_at = a.requested_at ∧ b.id ≤ a.id)) = true

instance : DecidableRel requestedDescRel := fun _ _ =>
  inferInstanceAs (Decidable (_ = true))

/-- `list_unmanaged_requests` (lines 631-715), returning the selected
request rows (the display dictionary derived from each row is
presentation data). -/
def list_unmanaged_requests (db : DB) (statusFilter : Option ReqStatus)
    (includeAll excludeAcknowledged excludeStaged : Bool) :
    List UnmanagedOrderRequest :=
  let reqs := db.requests.filter (fun r =>
    (!excludeAcknowledged || r.acknowledged_at.isNone) &&
    (!excludeStaged || r.staged_supplier_id.isNone) &&
    (if includeAll then true
     else
       match statusFilter with
       | some st => decide (r.status = st)
       | none => decide (r.status = ReqStatus.PENDING)))
  List.insertionSort requestedDescRel reqs

/-! ### Inventory endpoints (`app/main.py`, `api_inventory_receipt` /
`api_inventory_issue` / `api_inventory_adjustment`) -/

def api_inventory_receipt (db : DB) (itemCode : String) (quantity : Int)
    (reason createdBy : String) : Except Err DB :=
  if quantity ≤ 0 then .error .badQuantity
  else
    match db.items.find? (fun i => decide (i.item_code = itemCode)) with
    | none => .error .itemNotFound
    | some item =>
      match findInventory db item.id with
      | none => .error .inventoryNotFound
      | some _ =>
        .ok { db with
          inventory := db.inventory.map (fun inv =>
            if inv.item_id == item.id then
              { inv with quantity_on_hand := inv.quantity_on_hand + quantity }
            else inv),
          transactions := db.transactions ++
            [⟨item.id, .receipt, quantity, reason, "", createdBy⟩] }

def api_inventory_issue (db : DB) (itemCode : String) (quantity : Int)
    (reason createdBy : String) : Except Err DB :=
  if quantity ≤ 0 then .error .badQuantity
  else
    match db.items.find? (fun i => decide (i.item_code = itemCode)) with
    | none => .error .itemNotFound
    | some item =>
      match findInventory db item.id with
      | none => .error .inventoryNotFound
      | some inv =>
        if inv.quantity_on_hand < quantity then .error .insufficientStock
        else
          .ok { db with
            inventory := db.inventory.map (fun inv =>
              if inv.item_id == item.id then
                { inv with quantity_on_hand := inv.quantity_on_hand - quantity }
              else inv),
            transactions := db.transactions ++
              [⟨item.id, .issue, -quantity, reason, "", createdBy⟩] }

def api_inventory_adjustment (db : DB) (itemCode : String) (delta : Int)
    (reason createdBy : String) : Except Err DB :=
  if delta = 0 then .error .zeroAdjust
  else
    match db.items.find? (fun i => decide (i.item_code = itemCode)) with
    | none => .error .itemNotFound
    | some item =>
      match findInventory db item.id with
      | none => .error .inventoryNotFound
      | some inv =>
        if inv.quantity_on_hand + delta < 0 then .error .insufficientStock
        else
          .ok { db with
            inventory := db.inventory.map (fun i =>
              if i.item_id == item.id then
                { i with quantity_on_hand := inv.quantity_on_hand + delta }
              else i),
            transactions := db.transactions ++
              [⟨item.id, .adjust, delta,
                (if pyStrip reason = "" then "在庫調整" else pyStrip reason),
                "入出庫管理", createdBy⟩] }

/-! ### Unit-price resolution (claim C8) -/

/-- The resolution in `create_order` (lines 407-415): the explicit
per-line price, else the `item_suppliers` row matching the effective
supplier (whose stored price can itself be absent), else the item's own
default price. -/
def resolveUnitPriceOnCreate (lineUnitPrice : Option Int)
    (rows : List ItemSupplier) (effectiveSupplierId : Int)
    (itemDefault : Option Int) : Option Int :=
  let unitPrice := lineUnitPrice
  let unitPrice : Option Int :=
    match unitPrice, rows.find? (fun r => r.supplier_id == effectiveSupplierId) with
    | none, some row => row.unit_price
    | up, _ => up
  match unitPrice with
  | none => itemDefault
  | some p => some p

/-- The resolution in `receive_order_partial` (lines 1398-1433):
`current_price` from the `item_suppliers` row else the item default;
a supplied override that differs replaces it (after logging), one that
is equal leaves it — either way the override value is the result. -/
def resolveUnitPriceOnReceive (isRowPrice : Option (Option Int))
    (itemDefault : Option Int) (overridePrice : Option Int) : Option Int :=
  let currentPrice : Option Int :=
    match isRowPrice with
    | some p => p
    | none => none
  let currentPrice : Option Int :=
    match currentPrice with
    | none => itemDefault
    | some p => some p
  match overridePrice with
  | some op => if ¬ some op = currentPrice then some op else currentPrice
  | none => currentPrice

/-- The spec's `resolve_unit_price` precedence (§4.2): an explicit
per-call override, else the ItemSupplier pair's price, else the item's
own default unit price, else absent. -/
def resolveUnitPriceSpec (overridePrice : Option Int)
    (pairPrice : Option (Option Int)) (itemDefault : Option Int) : Option Int :=
  match overridePrice with
  | some p => some p
  | none =>
    match pairPrice with
    | some (some p) => some p
    | _ => itemDefault

/-! ### Operation alphabet for the ledger invariant (claim C7) -/

inductive Op
  | apiReceipt (itemCode : String) (quantity : Int) (reason createdBy : String)
  | apiIssue (itemCode : String) (quantity : Int) (reason createdBy : String)
  | apiAdjust (itemCode : String) (delta : Int) (reason createdBy : String)
  | orderStatus (orderId : Int) (target updatedBy : String)
  | orderReceive (orderId : Int) (updatedBy : String)
      (lineReceipts : List (Int × Int)) (deliveryDate deliveryNoteNumber : Option String)
      (lineUnitPrices : List (Int × Option Int))

/-- Run one operation against the committed store; a raised error leaves
the store unchanged (the uncommitted session is discarded). -/
def applyOp (db : DB) : Op → DB
  | .apiReceipt c q r u =>
    match api_inventory_receipt db c q r u with
    | .ok db' => db'
    | .error _ => db
  | .apiIssue c q r u =>
    match api_inventory_issue db c q r u with
    | .ok db' => db'
    | .error _ => db
  | .apiAdjust c d r u =>
    match api_inventory_adjustment db c d r u with
    | .ok db' => db'
    | .error _ => db
  | .orderStatus oid t u =>
    match update_order_status db oid t u with
    | .ok p => p.1
    | .error _ => db
  | .orderReceive oid u lr dd dn lp =>
    match receiveOrder db oid u lr dd dn lp with
    | .ok p => p.1
    | .error _ => db

/-- The ledger invariant: inventory rows are unique per item, every
stored on-hand quantity is the running sum of that item's ledger deltas,
and a ledger row never exists without its inventory row. -/
def LedgerOk (db : DB) : Prop :=
  (db.inventory.map (fun i => i.item_id)).Nodup ∧
  (∀ inv ∈ db.inventory, inv.quantity_on_hand = sumDeltas db inv.item_id) ∧
  (∀ t ∈ db.transactions, ∃ inv ∈ db.inventory, inv.item_id = t.item_id)

instance (db : DB) : Decidable (LedgerOk db) := by
  unfold LedgerOk
  infer_instance

/-- `true` on `Except.ok` (an operation that did not raise). -/
def exceptOk {ε α : Type _} : Except ε α → Bool
  | .ok _ => true
  | .error _ => false

/-! ### Concrete stores used by witnesses and counterexamples -/

/-- One supplier, one stocked item below its reorder point, one WAITING
order for it with a converted unmanaged request attached. -/
def fixtureA : DB :=
  { suppliers := [⟨1, "S"⟩]
    items := [⟨10, "X-1", "Item X", some "dept", none, 10, 2, some 100, some 1⟩]
    itemSuppliers := []
    inventory := [⟨10, 5⟩]
    transactions := [⟨10, .receipt, 5, "r", "", "u"⟩]
    orders := [⟨1, 1, "dept", "user", .WAITING, 1000⟩]
    orderLines := [⟨100, 1, some 10, "", "", 10, 0, ""⟩]
    documents := [⟨1⟩]
    requests := [⟨7, 1, .CONVERTED, some 1, some 100, none, none, none⟩]
    results := []
    priceHistory := [] }

/-- `fixtureA` with the order already RECEIVED. -/
def fixtureReceived : DB :=
  { fixtureA with orders := [⟨1, 1, "dept", "user", .RECEIVED, 1000⟩] }

/-- `fixtureA` with a DRAFT order. -/
def fixtureDraft : DB :=
  { fixtureA with orders := [⟨1, 1, "dept", "user", .DRAFT, 1000⟩] }

/-- `fixtureA` with one fully received line (id 100) and one open
free-text line (id 101). -/
def fixtureC4 : DB :=
  { fixtureA with
    orderLines := [⟨100, 1, some 10, "", "", 5, 5, ""⟩,
      ⟨101, 1, none, "free", "", 10, 0, ""⟩] }

/-- Two suppliers and a PENDING request already staged to supplier 1. -/
def fixtureStage : DB :=
  { fixtureA with
    suppliers := [⟨1, "S"⟩, ⟨2, "T"⟩]
    requests := [⟨7, 1, .PENDING, none, none, some 1, some 50, none⟩] }

/-- The store produced by receiving 4 of 10 on `fixtureA`'s order. -/
def fixtureAfterReceive : DB :=
  { fixtureA with
    inventory := [⟨10, 9⟩]
    transactions := [⟨10, .receipt, 5, "r", "", "u"⟩,
      ⟨10, .receipt, 4, "発注#1 分納入庫", "発注管理 明細#100", "u"⟩]
    orderLines := [⟨100, 1, some 10, "", "", 10, 4, ""⟩]
    results := [⟨"2026-02-01", 1, "DN-1", some 10, none, 4, some 100, some 400,
      some "2602", "", 1, 100⟩] }

/-- `fixtureStage` after restaging request 7 to supplier 2 at time 99. -/
def fixtureStageOut : DB :=
  { fixtureStage with
    requests := [⟨7, 1, .PENDING, none, none, some 2, some 99, none⟩] }

/-- The reset applied to a linked request when its order is cancelled. -/
def resetRequest (r : UnmanagedOrderRequest) : UnmanagedOrderRequest :=
  { r with status := .PENDING, purchase_order_id := none, purchase_order_line_id := none }

/-! ## Supporting lemmas -/

theorem find?_key_eq_some {α : Type _} (key : α → Int) {l : List α} {a : α}
    (hnd : (l.map key).Nodup) (ha : a ∈ l) :
    l.find? (fun x => key x == key a) = some a := by
  induction l with
  | nil => cases ha
  | cons b t ih =>
    rw [List.map_cons, List.nodup_cons] at hnd
    rcases List.mem_cons.mp ha with rfl | hat
    · exact List.find?_cons_of_pos _ (by simp)
    · have hne : ¬ key b = key a := fun hc =>
        hnd.1 (hc ▸ List.mem_map_of_mem key hat)
      rw [List.find?_cons_of_neg _ (by simpa using hne)]
      exact ih hnd.2 hat

theorem findOrder_self {db : DB} {o : PurchaseOrder}
    (hnd : (db.orders.map (fun x => x.id)).Nodup) (ho : o ∈ db.orders) :
    findOrder db o.id = some o := by
  unfold findOrder
  exact find?_key_eq_some (fun x => x.id) hnd ho

theorem statusOfString_value (st : OrderStatus) :
    statusOfString (statusValue st) = some st := by
  cases st <;> rfl

theorem normalize_statusValue (st : OrderStatus) :
    pyUpper (pyStrip (statusValue st)) = statusValue st := by
  cases st <;> rfl

/-! ## C10 -/

/-- C10: for every persisted purchase order, calling `update_order_status`
with a target that trims and uppercases to the order's current status
returns success with the unchanged status and modifies nothing, including
when the order is in a terminal state (RECEIVED or CANCELLED). -/
theorem update_order_status_same_target_noop (db : DB) (o : PurchaseOrder)
    (target updatedBy : String)
    (hnd : (db.orders.map (fun x => x.id)).Nodup) (ho : o ∈ db.orders)
    (hnorm : pyUpper (pyStrip target) = statusValue o.status) :
    update_order_status db o.id target updatedBy =
      .ok (db, ⟨o.id, o.status, false⟩) := by
  unfold update_order_status
  rw [findOrder_self hnd ho, hnorm, statusOfString_value]
  simp

theorem update_order_status_same_target_noop_witness :
    ((fixtureReceived.orders.map (fun x => x.id)).Nodup ∧
      (⟨1, 1, "dept", "user", .RECEIVED, 1000⟩ : PurchaseOrder) ∈ fixtureReceived.orders ∧
      pyUpper (pyStrip " received ") = statusValue OrderStatus.RECEIVED) ∧
    update_order_status fixtureReceived 1 " received " "u" =
      .ok (fixtureReceived, ⟨1, .RECEIVED, false⟩) :=
  ⟨by decide,
    update_order_status_same_target_noop fixtureReceived
      ⟨1, 1, "dept", "user", .RECEIVED, 1000⟩ " received " "u"
      (by decide) (by decide) (by decide)⟩

/-! ## C1 -/

/-- C1 counterexample: requesting target RECEIVED on an order already in
RECEIVED succeeds, although (RECEIVED, RECEIVED) is not among the eight
allowed transitions — so "succeeds exactly when the pair is one of the
eight" is false as stated. -/
theorem update_order_status_table_counterexample :
    update_order_status fixtureReceived 1 "RECEIVED" "u" =
      .ok (fixtureReceived, ⟨1, .RECEIVED, false⟩) ∧
    ¬ OrderStatus.RECEIVED ∈ allowedTargets OrderStatus.RECEIVED ∧
    (findOrder fixtureReceived 1).map (fun o => o.status) =
      some OrderStatus.RECEIVED :=
  ⟨by decide, by decide, by decide⟩

/-- C1 (amended): a requested target succeeds exactly when the
(current, target) pair is one of the eight allowed transitions OR the
target equals the current status (a successful no-op); every other
request fails with the invalid-transition error. -/
theorem update_order_status_table (db : DB) (o : PurchaseOrder)
    (tgt : OrderStatus) (updatedBy : String)
    (hnd : (db.orders.map (fun x => x.id)).Nodup) (ho : o ∈ db.orders) :
    (exceptOk (update_order_status db o.id (statusValue tgt) updatedBy) = true ↔
      (tgt ∈ allowedTargets o.status ∨ tgt = o.status)) ∧
    (¬ (tgt ∈ allowedTargets o.status ∨ tgt = o.status) →
      update_order_status db o.id (statusValue tgt) updatedBy =
        .error .invalidTransition) := by
  unfold update_order_status
  rw [findOrder_self hnd ho, normalize_statusValue, statusOfString_value]
  by_cases h1 : tgt = o.status
  · simp [h1, exceptOk]
  · by_cases h2 : tgt ∈ allowedTargets o.status
    · constructor
      · by_cases h3 : tgt = OrderStatus.CANCELLED
        · subst h3
          simp [h1, h2, exceptOk]
        · simp [h1, h2, h3, exceptOk]
      · intro hc
        exact absurd (Or.inl h2) hc
    · simp [h1, h2, exceptOk]

/-! ## C2 -/

/-- C2: from every state that allows CANCELLED (DRAFT, CONFIRMED, SENT,
WAITING), `update_order_status` with target CANCELLED deletes the order
row outright together with its lines and its document, and resets every
`UnmanagedOrderRequest` that referenced the order to PENDING with its
order/line links cleared; such a request shows up again in the default
`list_unmanaged_requests` call, and — when its staging was cleared at
conversion, as `create_order` does — also in the staged-excluded
worklist query. -/
theorem cancel_deletes_order_and_resets_requests (db : DB) (o : PurchaseOrder)
    (updatedBy : String)
    (hnd : (db.orders.map (fun x => x.id)).Nodup) (ho : o ∈ db.orders)
    (hst : o.status = OrderStatus.DRAFT ∨ o.status = OrderStatus.CONFIRMED ∨
      o.status = OrderStatus.SENT ∨ o.status = OrderStatus.WAITING) :
    ∃ db', update_order_status db o.id "CANCELLED" updatedBy =
        .ok (db', ⟨o.id, .CANCELLED, true⟩) ∧
      db'.orders = db.orders.filter (fun x => !(x.id == o.id)) ∧
      (∀ o' ∈ db'.orders, ¬ o'.id = o.id) ∧
      linesOf db' o.id = [] ∧
      (∀ d ∈ db'.documents, ¬ d.purchase_order_id = o.id) ∧
      (∀ r ∈ db.requests, r.purchase_order_id = some o.id →
        (resetRequest r ∈ db'.requests ∧
          resetRequest r ∈ list_unmanaged_requests db' none false false false ∧
          (r.staged_supplier_id = none →
            resetRequest r ∈ list_unmanaged_requests db' none false false true))) ∧
      (∀ r ∈ db.requests, ¬ r.purchase_order_id = some o.id →
        r ∈ db'.requests) := by
  have hne : ¬ OrderStatus.CANCELLED = o.status := by
    rcases hst with h | h | h | h <;> simp [h]
  have hall : OrderStatus.CANCELLED ∈ allowedTargets o.status := by
    rcases hst with h | h | h | h <;> simp [h, allowedTargets]
  unfold update_order_status
  rw [findOrder_self hnd ho,
    show statusOfString (pyUpper (pyStrip "CANCELLED")) =
      some OrderStatus.CANCELLED from rfl]
  dsimp only
  rw [if_neg hne, if_neg (not_not_intro hall), if_pos rfl]
  refine ⟨_, rfl, rfl, ?_, ?_, ?_, ?_, ?_⟩
  · intro o' ho'
    have := (List.mem_filter.mp ho').2
    simpa using this
  · unfold linesOf
    rw [List.filter_filter]
    apply List.filter_eq_nil_iff.mpr
    intro l _
    simp
  · intro d hd
    have := (List.mem_filter.mp hd).2
    simpa using this
  · intro r hr hlink
    have hmem : resetRequest r ∈
        db.requests.map (fun r =>
          if r.purchase_order_id == some o.id then
            { r with
              status := ReqStatus.PENDING
              purchase_order_id := none
              purchase_order_line_id := none }
          else r) := by
      refine List.mem_map.mpr ⟨r, hr, ?_⟩
      rw [if_pos (by simpa using hlink)]
      rfl
    refine ⟨hmem, ?_, ?_⟩
    · unfold list_unmanaged_requests
      rw [(List.perm_insertionSort requestedDescRel _).mem_iff]
      refine List.mem_filter.mpr ⟨hmem, ?_⟩
      simp [resetRequest]
    · intro hstaged
      unfold list_unmanaged_requests
      rw [(List.perm_insertionSort requestedDescRel _).mem_iff]
      refine List.mem_filter.mpr ⟨hmem, ?_⟩
      simp [resetRequest, hstaged]
  · intro r hr hlink
    refine List.mem_map.mpr ⟨r, hr, ?_⟩
    rw [if_neg (by simpa using hlink)]

theorem cancel_deletes_order_and_resets_requests_witness :
    ((fixtureA.orders.map (fun x => x.id)).Nodup ∧
      (⟨1, 1, "dept", "user", .WAITING, 1000⟩ : PurchaseOrder) ∈ fixtureA.orders ∧
      ((⟨1, 1, "dept", "user", .WAITING, 1000⟩ : PurchaseOrder).status =
          OrderStatus.DRAFT ∨
        (⟨1, 1, "dept", "user", .WAITING, 1000⟩ : PurchaseOrder).status =
          OrderStatus.CONFIRMED ∨
        (⟨1, 1, "dept", "user", .WAITING, 1000⟩ : PurchaseOrder).status =
          OrderStatus.SENT ∨
        (⟨1, 1, "dept", "user", .WAITING, 1000⟩ : PurchaseOrder).status =
          OrderStatus.WAITING)) ∧
    (∃ db', update_order_status fixtureA 1 "CANCELLED" "u" =
        .ok (db', ⟨1, .CANCELLED, true⟩) ∧
      db'.orders = fixtureA.orders.filter (fun x => !(x.id == (1 : Int))) ∧
      (∀ o' ∈ db'.orders, ¬ o'.id = (1 : Int)) ∧
      linesOf db' 1 = [] ∧
      (∀ d ∈ db'.documents, ¬ d.purchase_order_id = (1 : Int)) ∧
      (∀ r ∈ fixtureA.requests, r.purchase_order_id = some 1 →
        (resetRequest r ∈ db'.requests ∧
          resetRequest r ∈ list_unmanaged_requests db' none false false false ∧
          (r.staged_supplier_id = none →
            resetRequest r ∈ list_unmanaged_requests db' none false false true))) ∧
      (∀ r ∈ fixtureA.requests, ¬ r.purchase_order_id = some 1 →
        r ∈ db'.requests)) :=
  ⟨⟨by decide, by decide, by decide⟩,
    cancel_deletes_order_and_resets_requests fixtureA
      ⟨1, 1, "dept", "user", .WAITING, 1000⟩ "u"
      (by decide) (by decide) (by decide)⟩

/-! ## C6 -/

theorem isCommittedItem_iff (db : DB) (itemId : Int) :
    isCommittedItem db itemId = true ↔
      ∃ l ∈ db.orderLines, l.item_id = some itemId ∧
        ∃ o ∈ db.orders, o.id = l.purchase_order_id ∧
          (o.status = OrderStatus.CONFIRMED ∨ o.status = OrderStatus.SENT ∨
            o.status = OrderStatus.WAITING) := by
  unfold isCommittedItem
  simp only [List.any_eq_true, Bool.and_eq_true, beq_iff_eq,
    List.elem_iff, committedStatuses]
  constructor
  · rintro ⟨l, hl, hlid, o, ho, hoid, hst⟩
    exact ⟨l, hl, hlid, o, ho, hoid, by simpa using hst⟩
  · rintro ⟨l, hl, hlid, o, ho, hoid, hst⟩
    exact ⟨l, hl, hlid, o, ho, hoid, by simpa using hst⟩

/-- C6: a catalog item appears as a low-stock candidate exactly when its
reorder point is strictly positive, its on-hand quantity is at most its
reorder point (equality included), it is not referenced by any line of
an order in status CONFIRMED, SENT or WAITING (DRAFT and RECEIVED do not
exclude), and it passes the optional department filter. -/
theorem build_low_stock_candidates_membership (db : DB) (department : String)
    (item : Item) (hmem : item ∈ db.items)
    (hnd : (db.items.map (fun i => i.id)).Nodup) :
    (∃ c ∈ build_low_stock_candidates db department, c.item_id = item.id) ↔
      ((¬ ∃ l ∈ db.orderLines, l.item_id = some item.id ∧
          ∃ o ∈ db.orders, o.id = l.purchase_order_id ∧
            (o.status = OrderStatus.CONFIRMED ∨ o.status = OrderStatus.SENT ∨
              o.status = OrderStatus.WAITING)) ∧
        0 < item.reorder_point ∧
        onHandOf db item.id ≤ item.reorder_point ∧
        (pyStrip department = "" ∨
          pyStrip (item.department.getD "") = pyStrip department)) := by
  unfold build_low_stock_candidates
  constructor
  · rintro ⟨c, hc, hcid⟩
    rcases List.mem_filterMap.mp hc with ⟨a, ha, hfa⟩
    have ha' : a ∈ db.items :=
      (List.perm_insertionSort itemCodeRel db.items).mem_iff.mp ha
    dsimp only at hfa
    by_cases h1 : isCommittedItem db a.id = true
    · rw [if_pos h1] at hfa
      exact absurd hfa (by simp)
    rw [if_neg h1] at hfa
    by_cases h2 : a.reorder_point ≤ 0
    · rw [if_pos h2] at hfa
      exact absurd hfa (by simp)
    rw [if_neg h2] at hfa
    by_cases h3 : a.reorder_point < onHandOf db a.id
    · rw [if_pos h3] at hfa
      exact absurd hfa (by simp)
    rw [if_neg h3] at hfa
    by_cases h4 : ¬ pyStrip department = "" ∧
        ¬ pyStrip (a.department.getD "") = pyStrip department
    · rw [if_pos h4] at hfa
      exact absurd hfa (by simp)
    rw [if_neg h4] at hfa
    have haid : a.id = item.id := by
      have hX := Option.some_inj.mp hfa
      rw [← hX] at hcid
      exact hcid
    have haeq : a = item := List.inj_on_of_nodup_map hnd ha' hmem haid
    subst haeq
    refine ⟨fun hc' => ?_, by omega, by omega, ?_⟩
    · rw [(isCommittedItem_iff db a.id).mpr hc'] at h1
      exact h1 rfl
    · by_cases hsel : pyStrip department = ""
      · exact Or.inl hsel
      · rcases not_and_or.mp h4 with h | h
        · exact absurd (not_not.mp h) hsel
        · exact Or.inr (not_not.mp h)
  · rintro ⟨hnc, hrp, hoh, hdept⟩
    have h1 : ¬ isCommittedItem db item.id = true := fun hc =>
      hnc ((isCommittedItem_iff db item.id).mp hc)
    have hmem' : item ∈ List.insertionSort itemCodeRel db.items :=
      (List.perm_insertionSort itemCodeRel db.items).mem_iff.mpr hmem
    refine ⟨⟨item.id, item.item_code,
        (if (item.department.getD "") = "" then "未設定" else item.department.getD ""),
        onHandOf db item.id, item.reorder_point,
        onHandOf db item.id - item.reorder_point,
        max 1 (if item.default_order_quantity = 0 then 1
          else item.default_order_quantity)⟩,
      List.mem_filterMap.mpr ⟨item, hmem', ?_⟩, rfl⟩
    have h2 : ¬ item.reorder_point ≤ 0 := by omega
    have h3 : ¬ item.reorder_point < onHandOf db item.id := by omega
    have h4 : ¬ (¬ pyStrip department = "" ∧
        ¬ pyStrip (item.department.getD "") = pyStrip department) := by
      rcases hdept with h | h
      · exact fun hc => hc.1 h
      · exact fun hc => hc.2 h
    simp only [h1, h2, h3, h4, if_false, if_neg]
    simp [h1, h2, h3, h4]

theorem build_low_stock_candidates_membership_witness :
    ((⟨10, "X-1", "Item X", some "dept", none, 10, 2, some 100, some 1⟩ : Item) ∈
        fixtureReceived.items ∧
      (fixtureReceived.items.map (fun i => i.id)).Nodup) ∧
    (∃ c ∈ build_low_stock_candidates fixtureReceived "", c.item_id = 10) :=
  ⟨⟨by decide, by decide⟩,
    (build_low_stock_candidates_membership fixtureReceived ""
      ⟨10, "X-1", "Item X", some "dept", none, 10, 2, some 100, some 1⟩
      (by decide) (by decide)).mpr (by decide)⟩

/-! ## Receive-loop lemmas (C3, C4, C7) -/

theorem exceptMap_error {ε α β : Type _} {f : α → β} {x : Except ε α} {e : ε}
    (h : x.map f = .error e) : x = .error e := by
  cases x with
  | ok a => simp [Except.map] at h
  | error e' => simpa [Except.map] using h

theorem exceptMap_ok {ε α β : Type _} {f : α → β} {x : Except ε α} {b : β}
    (h : x.map f = .ok b) : ∃ a, x = .ok a ∧ b = f a := by
  cases x with
  | ok a =>
    refine ⟨a, rfl, ?_⟩
    simpa [Except.map] using h.symm
  | error e' => simp [Except.map] at h

/-- The only error the quantity loop itself raises is the over-receipt one. -/
theorem receiveLoop_error_eq (m : List (Int × Int)) (u : String) (oid : Int) :
    ∀ (ls : List PurchaseOrderLine) (db : DB) (e : Err),
      receiveLoop m u oid db ls = .error e → e = .overReceipt := by
  intro ls
  induction ls with
  | nil =>
    intro db e h
    simp [receiveLoop] at h
  | cons line rest ih =>
    intro db e h
    unfold receiveLoop at h
    dsimp only at h
    split at h
    · exact ih _ _ (exceptMap_error h)
    · split at h
      · exact ih _ _ (exceptMap_error h)
      · split at h
        · exact ih _ _ (exceptMap_error h)
        · split at h
          · injection h with h'
            exact h'.symm
          · exact ih _ _ (exceptMap_error h)

/-- With a non-empty quantity map, a line whose remaining balance is
positive and whose requested quantity exceeds it makes the loop raise. -/
theorem receiveLoop_error_of_over (m : List (Int × Int)) (u : String) (oid : Int)
    (hm : ¬ m = []) :
    ∀ (ls : List PurchaseOrderLine) (db : DB),
      (∃ l ∈ ls, 0 < max 0 (l.quantity - max 0 l.received_quantity) ∧
        ∃ q, m.lookup l.id = some q ∧
          max 0 (l.quantity - max 0 l.received_quantity) < q) →
      ∃ e, receiveLoop m u oid db ls = .error e := by
  have hempty : m.isEmpty = false := by
    cases m with
    | nil => exact absurd rfl hm
    | cons a t => rfl
  intro ls
  induction ls with
  | nil =>
    rintro db ⟨l, hl, _⟩
    cases hl
  | cons line rest ih =>
    rintro db ⟨l, hl, hrem, q, hq, hover⟩
    rcases List.mem_cons.mp hl with rfl | hl'
    · refine ⟨.overReceipt, ?_⟩
      unfold receiveLoop
      dsimp only
      rw [if_neg (by omega : ¬ max 0 (l.quantity - max 0 l.received_quantity) ≤ 0)]
      rw [hempty]
      simp only [Bool.false_eq_true, if_false, hq]
      rw [if_neg (by omega : ¬ q ≤ 0), if_pos hover]
    · unfold receiveLoop
      dsimp only
      split
      · rcases ih db ⟨l, hl', hrem, q, hq, hover⟩ with ⟨e, he⟩
        exact ⟨e, by rw [he]; rfl⟩
      · split
        · rcases ih db ⟨l, hl', hrem, q, hq, hover⟩ with ⟨e, he⟩
          exact ⟨e, by rw [he]; rfl⟩
        · split
          · rcases ih db ⟨l, hl', hrem, q, hq, hover⟩ with ⟨e, he⟩
            exact ⟨e, by rw [he]; rfl⟩
          · split
            · exact ⟨.overReceipt, rfl⟩
            · rcases ih _ ⟨l, hl', hrem, q, hq, hover⟩ with ⟨e, he⟩
              exact ⟨e, by rw [he]; rfl⟩

theorem applyReceiptToInventory_orderLines (db : DB) (i q : Int) (r n c : String) :
    (applyReceiptToInventory db i q r n c).orderLines = db.orderLines := by
  unfold applyReceiptToInventory
  split <;> rfl

theorem applyReceiptToInventory_orders (db : DB) (i q : Int) (r n c : String) :
    (applyReceiptToInventory db i q r n c).orders = db.orders := by
  unfold applyReceiptToInventory
  split <;> rfl

theorem filter_map_of_pres {α : Type _} (p : α → Bool) (f : α → α) :
    ∀ {l : List α}, (∀ x ∈ l, p (f x) = p x) →
      (l.map f).filter p = (l.filter p).map f := by
  intro l
  induction l with
  | nil => intro _; rfl
  | cons a t ih =>
    intro h
    have ha := h a (List.mem_cons_self a t)
    have ht := ih (fun x hx => h x (List.mem_cons_of_mem a hx))
    cases hpa : p a with
    | true =>
      rw [hpa] at ha
      simp [List.filter_cons, hpa, ha, ht]
    | false =>
      rw [hpa] at ha
      simp [List.filter_cons, hpa, ha, ht]

/-- Through the loop the stored lines of the processed order become
exactly the returned line list, and no line id changes. -/
theorem receiveLoop_ok_lines (m : List (Int × Int)) (u : String) (oid : Int) :
    ∀ (ls done : List PurchaseOrderLine) (db : DB) (out : LoopOut),
      (db.orderLines.map (fun l => l.id)).Nodup →
      linesOf db oid = done ++ ls →
      receiveLoop m u oid db ls = .ok out →
      linesOf out.db oid = done ++ out.lines ∧
      out.db.orderLines.map (fun l => l.id) = db.orderLines.map (fun l => l.id) := by
  intro ls
  induction ls with
  | nil =>
    intro done db out hnd hlines h
    simp only [receiveLoop] at h
    cases h
    exact ⟨by simpa using hlines, rfl⟩
  | cons line rest ih =>
    intro done db out hnd hlines h
    have hmemline : line ∈ db.orderLines := by
      have hin : line ∈ linesOf db oid := by
        rw [hlines]
        exact List.mem_append_right done (List.mem_cons_self line rest)
      exact (List.mem_filter.mp hin).1
    have hndls : ((done ++ line :: rest).map (fun l => l.id)).Nodup := by
      rw [← hlines]
      exact ((List.filter_sublist db.orderLines).map (fun l => l.id)).nodup hnd
    have hdone : ∀ x ∈ done, ¬ x.id = line.id := by
      intro x hx hc
      rw [List.map_append] at hndls
      rcases List.nodup_append.mp hndls with ⟨_, _, hdisj⟩
      exact hdisj (List.mem_map_of_mem _ hx)
        (by rw [hc, List.map_cons]; exact List.mem_cons_self _ _)
    have hrest : ∀ x ∈ rest, ¬ x.id = line.id := by
      intro x hx hc
      rw [List.map_append, List.map_cons] at hndls
      rcases List.nodup_append.mp hndls with ⟨_, hnd2, _⟩
      rcases List.nodup_cons.mp hnd2 with ⟨hnotin, _⟩
      exact hnotin (hc ▸ List.mem_map_of_mem _ hx)
    unfold receiveLoop at h
    dsimp only at h
    split at h
    · rcases exceptMap_ok h with ⟨out', hrec, rfl⟩
      have hlines' : linesOf db oid = (done ++ [line]) ++ rest := by
        rw [hlines, List.append_assoc]
        rfl
      rcases ih (done ++ [line]) db out' hnd hlines' hrec with ⟨h1, h2⟩
      refine ⟨?_, h2⟩
      rw [h1, List.append_assoc]
      rfl
    · split at h
      · rcases exceptMap_ok h with ⟨out', hrec, rfl⟩
        have hlines' : linesOf db oid = (done ++ [line]) ++ rest := by
          rw [hlines, List.append_assoc]
          rfl
        rcases ih (done ++ [line]) db out' hnd hlines' hrec with ⟨h1, h2⟩
        refine ⟨?_, h2⟩
        rw [h1, List.append_assoc]
        rfl
      · rename_i incoming hinc
        split at h
        · rcases exceptMap_ok h with ⟨out', hrec, rfl⟩
          have hlines' : linesOf db oid = (done ++ [line]) ++ rest := by
            rw [hlines, List.append_assoc]
            rfl
          rcases ih (done ++ [line]) db out' hnd hlines' hrec with ⟨h1, h2⟩
          refine ⟨?_, h2⟩
          rw [h1, List.append_assoc]
          rfl
        · split at h
          · exact absurd h (by simp)
          · rcases exceptMap_ok h with ⟨out', hrec, rfl⟩
            set line' : PurchaseOrderLine := { line with received_quantity := max 0 line.received_quantity + incoming } with hline'
            set g : PurchaseOrderLine → PurchaseOrderLine :=
              fun x => if x.id == line.id then line' else x with hg
            set db1 : DB := { db with orderLines := db.orderLines.map g } with hdb1
            have hpres : ∀ x ∈ db.orderLines,
                ((g x).purchase_order_id == oid) = (x.purchase_order_id == oid) := by
              intro x hx
              by_cases hxid : (x.id == line.id) = true
              · have hxeq : x = line := by
                  apply List.inj_on_of_nodup_map hnd hx hmemline
                  simpa using hxid
                subst hxeq
                simp [hg, hline']
              · have hne : ¬ x.id = line.id := by simpa using hxid
                simp [hg, hne]
            have hid : ∀ x ∈ db.orderLines, (g x).id = x.id := by
              intro x hx
              by_cases hxid : (x.id == line.id) = true
              · have hx' : x.id = line.id := by simpa using hxid
                simp [hg, hx', hline']
              · have hne : ¬ x.id = line.id := by simpa using hxid
                simp [hg, hne]
            have hids1 : db1.orderLines.map (fun l => l.id) =
                db.orderLines.map (fun l => l.id) := by
              rw [hdb1]
              dsimp only
              rw [List.map_map]
              exact List.map_congr_left (fun x hx => hid x hx)
            have hfix : ∀ (l2 : List PurchaseOrderLine),
                (∀ x ∈ l2, ¬ x.id = line.id) → l2.map g = l2 := by
              intro l2 hl2
              induction l2 with
              | nil => rfl
              | cons a t iht =>
                rw [List.map_cons,
                  iht (fun x hx => hl2 x (List.mem_cons_of_mem a hx))]
                have hne := hl2 a (List.mem_cons_self a t)
                simp [hg, hne]
            have hlines1 : linesOf db1 oid = done ++ line' :: rest := by
              show (db.orderLines.map g).filter
                  (fun l => l.purchase_order_id == oid) = done ++ line' :: rest
              rw [filter_map_of_pres _ _ hpres]
              show (linesOf db oid).map g = done ++ line' :: rest
              rw [hlines, List.map_append, List.map_cons]
              rw [hfix done hdone, hfix rest hrest]
              congr 2
              simp [hg]
            set db2 : DB :=
              if truthyId line.item_id then
                applyReceiptToInventory db1 (line.item_id.getD 0) incoming
                  ("発注#" ++ toString oid ++ " 分納入庫")
                  ("発注管理 明細#" ++ toString line.id)
                  (defaultCreatedBy u)
              else db1 with hdb2
            have hlines2eq : db2.orderLines = db1.orderLines := by
              rw [hdb2]
              split
              · exact applyReceiptToInventory_orderLines ..
              · rfl
            have hnd2 : (db2.orderLines.map (fun l => l.id)).Nodup := by
              rw [hlines2eq, hids1]
              exact hnd
            have hlines2 : linesOf db2 oid = (done ++ [line']) ++ rest := by
              show db2.orderLines.filter (fun l => l.purchase_order_id == oid) =
                (done ++ [line']) ++ rest
              rw [hlines2eq]
              have := hlines1
              rw [List.append_assoc]
              exact this
            rcases ih ((done ++ [line'])) db2 out' hnd2 hlines2 hrec with ⟨h1, h2⟩
            constructor
            · show linesOf out'.db oid = done ++ line' :: out'.lines
              rw [h1, List.append_assoc]
              rfl
            · show out'.db.orderLines.map (fun l => l.id) =
                db.orderLines.map (fun l => l.id)
              rw [h2, hlines2eq, hids1]

/-- Loop output lines keep `0 ≤ received ≤ quantity` when the input
lines satisfy it. -/
theorem receiveLoop_ok_bounds (m : List (Int × Int)) (u : String) (oid : Int) :
    ∀ (ls : List PurchaseOrderLine) (db : DB) (out : LoopOut),
      (∀ l ∈ ls, 0 ≤ l.received_quantity ∧ l.received_quantity ≤ l.quantity) →
      receiveLoop m u oid db ls = .ok out →
      ∀ l ∈ out.lines, 0 ≤ l.received_quantity ∧ l.received_quantity ≤ l.quantity := by
  intro ls
  induction ls with
  | nil =>
    intro db out hwf h
    simp only [receiveLoop] at h
    cases h
    intro l hl
    cases hl
  | cons line rest ih =>
    intro db out hwf h
    have hwfline := hwf line (List.mem_cons_self line rest)
    have hwfrest : ∀ l ∈ rest, 0 ≤ l.received_quantity ∧ l.received_quantity ≤ l.quantity :=
      fun l hl => hwf l (List.mem_cons_of_mem line hl)
    unfold receiveLoop at h
    dsimp only at h
    split at h
    · rcases exceptMap_ok h with ⟨out', hrec, rfl⟩
      intro l hl
      rcases List.mem_cons.mp hl with rfl | hl'
      · exact hwfline
      · exact ih db out' hwfrest hrec l hl'
    · split at h
      · rcases exceptMap_ok h with ⟨out', hrec, rfl⟩
        intro l hl
        rcases List.mem_cons.mp hl with rfl | hl'
        · exact hwfline
        · exact ih db out' hwfrest hrec l hl'
      · rename_i incoming hinc
        split at h
        · rcases exceptMap_ok h with ⟨out', hrec, rfl⟩
          intro l hl
          rcases List.mem_cons.mp hl with rfl | hl'
          · exact hwfline
          · exact ih db out' hwfrest hrec l hl'
        · rename_i hpos
          split at h
          · exact absurd h (by simp)
          · rename_i hnover
            rcases exceptMap_ok h with ⟨out', hrec, rfl⟩
            intro l hl
            rcases List.mem_cons.mp hl with rfl | hl'
            · constructor
              · show (0 : Int) ≤ max 0 line.received_quantity + incoming
                omega
              · show max 0 line.received_quantity + incoming ≤ line.quantity
                omega
            · exact ih _ out' hwfrest hrec l hl'

/-- The pricing phase only touches price rows, price history and
purchase results. -/
theorem pricingStep_fields (order : PurchaseOrder) (pd nt : String)
    (pm : List (Int × Option Int)) (u : String) (db : DB)
    (e : PurchaseOrderLine × Int) :
    (pricingStep order pd nt pm u db e).orderLines = db.orderLines ∧
    (pricingStep order pd nt pm u db e).orders = db.orders ∧
    (pricingStep order pd nt pm u db e).inventory = db.inventory ∧
    (pricingStep order pd nt pm u db e).transactions = db.transactions := by
  unfold pricingStep
  dsimp only
  repeat' split
  all_goals exact ⟨rfl, rfl, rfl, rfl⟩

theorem pricingFold_fields (order : PurchaseOrder) (pd nt : String)
    (pm : List (Int × Option Int)) (u : String) :
    ∀ (ps : List (PurchaseOrderLine × Int)) (db : DB),
      ((ps.foldl (pricingStep order pd nt pm u) db).orderLines = db.orderLines ∧
        (ps.foldl (pricingStep order pd nt pm u) db).orders = db.orders ∧
        (ps.foldl (pricingStep order pd nt pm u) db).inventory = db.inventory ∧
        (ps.foldl (pricingStep order pd nt pm u) db).transactions = db.transactions) := by
  intro ps
  induction ps with
  | nil => intro db; exact ⟨rfl, rfl, rfl, rfl⟩
  | cons e t ih =>
    intro db
    rcases pricingStep_fields order pd nt pm u db e with ⟨h1, h2, h3, h4⟩
    rcases ih (pricingStep order pd nt pm u db e) with ⟨g1, g2, g3, g4⟩
    exact ⟨g1.trans h1, g2.trans h2, g3.trans h3, g4.trans h4⟩

/-! ## C3 -/

/-- C3: for every successful partial-receipt call the resulting status
is RECEIVED exactly when every line of the order now has
`received_quantity = quantity` (otherwise WAITING — the only two
statuses the operation can leave), and the returned `fully_received`
flag is that same condition. -/
theorem receive_status_iff_all_received (db : DB) (orderId : Int)
    (updatedBy : String) (m : List (Int × Int)) (dd dn : Option String)
    (lp : List (Int × Option Int)) (db' : DB) (res : ReceiveResult)
    (hndL : (db.orderLines.map (fun l => l.id)).Nodup)
    (hwf : ∀ l ∈ db.orderLines,
      0 ≤ l.received_quantity ∧ l.received_quantity ≤ l.quantity)
    (h : receiveOrder db orderId updatedBy m dd dn lp = .ok (db', res)) :
    ((res.status = OrderStatus.RECEIVED ↔
        ∀ l ∈ linesOf db' res.purchase_order_id,
          l.received_quantity = l.quantity) ∧
      (res.status = OrderStatus.RECEIVED ∨ res.status = OrderStatus.WAITING) ∧
      (res.fully_received = true ↔
        ∀ l ∈ linesOf db' res.purchase_order_id,
          l.received_quantity = l.quantity)) := by
  unfold receiveOrder at h
  cases hfo : findOrder db orderId with
  | none =>
    rw [hfo] at h
    exact Except.noConfusion h
  | some order =>
    rw [hfo] at h
    dsimp only at h
    split at h
    · exact Except.noConfusion h
    split at h
    · exact Except.noConfusion h
    split at h
    · exact Except.noConfusion h
    split at h
    · exact Except.noConfusion h
    split at h
    · exact Except.noConfusion h
    split at h
    · exact Except.noConfusion h
    split at h
    · exact Except.noConfusion h
    split at h
    · exact Except.noConfusion h
    cases hloop : receiveLoop m updatedBy order.id db (linesOf db order.id) with
    | error e =>
      rw [hloop] at h
      exact Except.noConfusion h
    | ok out =>
      rw [hloop] at h
      unfold receiveFinish at h
      dsimp only at h
      split at h
      · exact Except.noConfusion h
      injection h with h'
      rw [Prod.mk.injEq] at h'
      obtain ⟨hdb, hres⟩ := h'
      have hlinesOut : linesOf out.db order.id = out.lines := by
        have := receiveLoop_ok_lines m updatedBy order.id
          (linesOf db order.id) [] db out hndL (by simp) hloop
        simpa using this.1
      have hbounds : ∀ l ∈ out.lines,
          0 ≤ l.received_quantity ∧ l.received_quantity ≤ l.quantity := by
        refine receiveLoop_ok_bounds m updatedBy order.id
          (linesOf db order.id) db out ?_ hloop
        intro l hl
        exact hwf l (List.mem_filter.mp hl).1
      have hlinesFinal : linesOf db' order.id = out.lines := by
        rw [← hdb]
        split
        · unfold linesOf
          rw [(pricingFold_fields order (pyStrip (dd.getD ""))
            (pyStrip (dn.getD "")) lp updatedBy out.processed _).1]
          exact hlinesOut
        · exact hlinesOut
      have hpo : res.purchase_order_id = order.id := by
        rw [← hres]
      have hst : res.status =
          (if out.lines.all (fun l =>
            max 0 l.quantity ≤ max 0 l.received_quantity) then
            OrderStatus.RECEIVED else OrderStatus.WAITING) := by
        rw [← hres]
      have hfr : res.fully_received =
          out.lines.all (fun l =>
            max 0 l.quantity ≤ max 0 l.received_quantity) := by
        rw [← hres]
      have hiff : (out.lines.all (fun l =>
          max 0 l.quantity ≤ max 0 l.received_quantity)) = true ↔
          (∀ l ∈ out.lines, l.received_quantity = l.quantity) := by
        rw [List.all_eq_true]
        constructor
        · intro hall l hl
          have h1 := hall l hl
          have h2 := hbounds l hl
          simp only [decide_eq_true_eq] at h1
          omega
        · intro hall l hl
          have h1 := hall l hl
          simp only [decide_eq_true_eq]
          omega
      rw [hpo, hlinesFinal, hst, hfr]
      cases hall : out.lines.all (fun l =>
          max 0 l.quantity ≤ max 0 l.received_quantity) with
      | true =>
        have hA := hiff.mp hall
        rw [if_pos rfl]
        exact ⟨iff_of_true rfl hA, Or.inl rfl, iff_of_true rfl hA⟩
      | false =>
        have hA : ¬ ∀ l ∈ out.lines, l.received_quantity = l.quantity := by
          intro hp
          rw [hiff.mpr hp] at hall
          exact Bool.noConfusion hall
        rw [if_neg (fun hc : (false : Bool) = true => Bool.noConfusion hc)]
        exact ⟨iff_of_false (fun hc => OrderStatus.noConfusion hc) hA,
          Or.inr rfl,
          iff_of_false (fun hc => Bool.noConfusion hc) hA⟩

theorem receive_status_iff_all_received_witness :
    ((ReceiveResult.mk 1 OrderStatus.WAITING false).status =
        OrderStatus.RECEIVED ↔
      ∀ l ∈ linesOf fixtureAfterReceive
        (ReceiveResult.mk 1 OrderStatus.WAITING false).purchase_order_id,
        l.received_quantity = l.quantity) ∧
    ((ReceiveResult.mk 1 OrderStatus.WAITING false).status =
        OrderStatus.RECEIVED ∨
      (ReceiveResult.mk 1 OrderStatus.WAITING false).status =
        OrderStatus.WAITING) ∧
    ((ReceiveResult.mk 1 OrderStatus.WAITING false).fully_received = true ↔
      ∀ l ∈ linesOf fixtureAfterReceive
        (ReceiveResult.mk 1 OrderStatus.WAITING false).purchase_order_id,
        l.received_quantity = l.quantity) :=
  receive_status_iff_all_received fixtureA 1 "u" [(100, 4)]
    (some "2026-02-01") (some "DN-1") [] fixtureAfterReceive
    ⟨1, OrderStatus.WAITING, false⟩ (by decide) (by decide) (by decide)

/-! ## C4 -/

/-- C4 counterexample: on a line whose remaining balance is already 0
(quantity 5, received 5) the loop skips the line before the over-receipt
check, so a request of 3 units against it does NOT fail with OverReceipt:
the call succeeds (receiving the other line). -/
theorem receive_over_receipt_counterexample :
    (∃ l ∈ linesOf fixtureC4 1,
      l.id = 100 ∧ max 0 (l.quantity - max 0 l.received_quantity) < 3) ∧
    exceptOk (receiveOrder fixtureC4 1 "u" [(100, 3), (101, 4)]
      (some "2026-02-01") (some "DN-1") []) = true := by
  decide

/-- C4 (amended): past the request-shape checks, if some line of the
order still has a positive remaining balance and the requested quantity
for it exceeds that balance, `receive_order_partial` raises OverReceipt,
so the request-scoped session rolls back and nothing is written.
(A request against a line whose remaining balance is already 0 is
skipped, not rejected.) -/
theorem receive_over_receipt (db : DB) (orderId : Int) (updatedBy : String)
    (m : List (Int × Int)) (dd dn : Option String)
    (lp : List (Int × Option Int)) (order : PurchaseOrder)
    (hfo : findOrder db orderId = some order)
    (hst : order.status = OrderStatus.SENT ∨ order.status = OrderStatus.WAITING)
    (hd1 : ¬ pyStrip (dd.getD "") = "")
    (hd2 : isIsoDate (pyStrip (dd.getD "")) = true)
    (hn : ¬ pyStrip (dn.getD "") = "")
    (hneg : (m.any fun p => decide (p.2 < 0)) = false)
    (hknown : (m.any fun p =>
      !((linesOf db order.id).map (fun l => l.id)).contains p.1) = false)
    (hm : ¬ m = [])
    (hover : ∃ l ∈ linesOf db order.id,
      0 < max 0 (l.quantity - max 0 l.received_quantity) ∧
      ∃ q, m.lookup l.id = some q ∧
        max 0 (l.quantity - max 0 l.received_quantity) < q) :
    receiveOrder db orderId updatedBy m dd dn lp = .error .overReceipt := by
  obtain ⟨e, he⟩ := receiveLoop_error_of_over m updatedBy order.id hm
    (linesOf db order.id) db hover
  have heq := receiveLoop_error_eq m updatedBy order.id
    (linesOf db order.id) db e he
  unfold receiveOrder
  rw [hfo]
  dsimp only
  rw [if_neg (by rcases hst with h | h <;> simp [h])]
  rw [if_neg (by rcases hst with h | h <;> simp [h])]
  rw [if_neg (not_not_intro hst)]
  rw [if_neg hd1]
  rw [if_neg (by simp [hd2])]
  rw [if_neg hn]
  rw [if_neg (by simp [hneg])]
  rw [if_neg (by
    intro hc
    obtain ⟨h1, h2⟩ := hc
    rw [hknown] at h2
    exact Bool.noConfusion h2)]
  rw [he]
  subst heq
  rfl

theorem receive_over_receipt_witness :
    receiveOrder fixtureA 1 "u" [(100, 11)] (some "2026-02-01")
      (some "DN-1") [] = .error .overReceipt :=
  receive_over_receipt fixtureA 1 "u" [(100, 11)] (some "2026-02-01")
    (some "DN-1") [] ⟨1, 1, "dept", "user", .WAITING, 1000⟩
    (by decide) (by decide) (by decide) (by decide) (by decide) (by decide)
    (by decide) (by decide) (by decide)

/-! ## C7

The ledger invariant only reads the `inventory` and `transactions`
fields, so an operation that rewrites other tables preserves it; the
operations that do touch inventory all follow the same shape: update
the (unique) row of one item and append one ledger row for it. -/

theorem ledgerOk_of_eq (db db' : DB)
    (hinv : db'.inventory = db.inventory)
    (htr : db'.transactions = db.transactions)
    (hled : LedgerOk db) : LedgerOk db' := by
  obtain ⟨h1, h2, h3⟩ := hled
  refine ⟨?_, ?_, ?_⟩
  · rw [hinv]; exact h1
  · intro i hi
    rw [hinv] at hi
    have h := h2 i hi
    unfold sumDeltas at h ⊢
    rw [htr]
    exact h
  · intro t ht
    rw [htr] at ht
    rw [hinv]
    exact h3 t ht

theorem sumDeltas_append (db db' : DB) (t : InventoryTransaction)
    (htr : db'.transactions = db.transactions ++ [t]) (x : Int) :
    sumDeltas db' x = sumDeltas db x +
      (if (t.item_id == x) = true then t.delta else 0) := by
  unfold sumDeltas
  rw [htr, List.filter_append, List.map_append, List.sum_append]
  congr 1
  rw [List.filter_singleton]
  by_cases hp : (t.item_id == x) = true
  · rw [if_pos hp, hp]
    simp
  · have hp' : (t.item_id == x) = false := by simpa using hp
    rw [if_neg hp, hp']
    simp

theorem sumDeltas_of_no_row (db : DB) (iid : Int)
    (hex : ∀ t ∈ db.transactions, ∃ i ∈ db.inventory, i.item_id = t.item_id)
    (hno : db.inventory.find? (fun i => i.item_id == iid) = none) :
    sumDeltas db iid = 0 := by
  have hn := List.find?_eq_none.mp hno
  have hzero : db.transactions.filter (fun t => t.item_id == iid) = [] := by
    rw [List.filter_eq_nil_iff]
    intro t ht hc
    obtain ⟨i, hi, hid⟩ := hex t ht
    exact hn i hi (by rw [hid]; exact hc)
  unfold sumDeltas
  rw [hzero]
  rfl

/-- On-hand of any item equals its delta sum under the invariant, also
when the item has no inventory row (then it has no ledger rows either,
by the third conjunct, and both sides are 0). -/
theorem onHand_eq_sumDeltas (db : DB) (iid : Int) (hled : LedgerOk db) :
    onHandOf db iid = sumDeltas db iid := by
  obtain ⟨hnd, hsum, hex⟩ := hled
  unfold onHandOf findInventory
  cases hfi : db.inventory.find? (fun i => i.item_id == iid) with
  | none =>
    rw [sumDeltas_of_no_row db iid hex hfi]
  | some i =>
    have h1 : i ∈ db.inventory := List.mem_of_find?_eq_some hfi
    have h2 : i.item_id = iid := by
      have := List.find?_some hfi
      simpa using this
    show i.quantity_on_hand = sumDeltas db iid
    rw [hsum i h1, h2]

/-- Core step of the invariant: bump the quantity of one item's rows by
`d` and append one ledger row for the same item with delta `d`. -/
theorem ledger_bump (db db' : DB) (iid : Int) (g : Int → Int) (d : Int)
    (t : InventoryTransaction)
    (hled : LedgerOk db)
    (hrow : ∃ i ∈ db.inventory, i.item_id = iid)
    (hg : ∀ i ∈ db.inventory, i.item_id = iid →
      g i.quantity_on_hand = i.quantity_on_hand + d)
    (hti : t.item_id = iid) (htd : t.delta = d)
    (hinv : db'.inventory = db.inventory.map (fun i =>
      if i.item_id == iid then
        { i with quantity_on_hand := g i.quantity_on_hand }
      else i))
    (htr : db'.transactions = db.transactions ++ [t]) :
    LedgerOk db' := by
  obtain ⟨hnd, hsum, hex⟩ := hled
  have hkeep : ∀ i : InventoryItem,
      (if (i.item_id == iid) = true then
        { i with quantity_on_hand := g i.quantity_on_hand }
      else i).item_id = i.item_id := by
    intro i
    by_cases hc : (i.item_id == iid) = true
    · rw [if_pos hc]
    · rw [if_neg hc]
  have hids : db'.inventory.map (fun i => i.item_id) =
      db.inventory.map (fun i => i.item_id) := by
    rw [hinv, List.map_map]
    refine List.map_congr_left ?_
    intro a _
    exact hkeep a
  have hmem : ∀ x : Int, (∃ i ∈ db.inventory, i.item_id = x) →
      ∃ y ∈ db'.inventory, y.item_id = x := by
    intro x hx
    obtain ⟨i, hi, hix⟩ := hx
    have hx' : x ∈ db'.inventory.map (fun i => i.item_id) := by
      rw [hids]
      exact List.mem_map.mpr ⟨i, hi, hix⟩
    obtain ⟨y, hy, hyx⟩ := List.mem_map.mp hx'
    exact ⟨y, hy, hyx⟩
  refine ⟨?_, ?_, ?_⟩
  · rw [hids]
    exact hnd
  · intro i' hi'
    rw [hinv] at hi'
    obtain ⟨i, hi, rfl⟩ := List.mem_map.mp hi'
    rw [sumDeltas_append db db' t htr]
    by_cases hc : (i.item_id == iid) = true
    · rw [if_pos hc]
      have hidi : i.item_id = iid := by simpa using hc
      have h1 := hsum i hi
      have h2 := hg i hi hidi
      dsimp only
      rw [if_pos (by rw [hti, hidi]; simp)]
      rw [h2, h1, htd]
    · rw [if_neg hc]
      have h1 := hsum i hi
      have hne : ¬ i.item_id = iid := by simpa using hc
      have hcond : ¬ (t.item_id == i.item_id) = true := by
        simp only [beq_iff_eq, hti]
        exact fun hcc => hne hcc.symm
      rw [if_neg hcond, add_zero]
      exact h1
  · intro tr htr'
    rw [htr] at htr'
    rcases List.mem_append.mp htr' with hold | hnew
    · obtain ⟨i, hi, hid⟩ := hex tr hold
      exact hmem tr.item_id ⟨i, hi, hid⟩
    · have htt : tr = t := by simpa using hnew
      subst htt
      obtain ⟨i, hi, hid⟩ := hrow
      exact hmem tr.item_id ⟨i, hi, hid.trans hti.symm⟩

/-- `_apply_receipt_inventory` / the inventory posting of partial
receiving preserves the ledger invariant (creating the missing row with
quantity 0 is sound because a rowless item has no ledger rows). -/
theorem applyReceiptToInventory_ledger (db : DB) (iid incoming : Int)
    (r n c : String) (hled : LedgerOk db) :
    LedgerOk (applyReceiptToInventory db iid incoming r n c) := by
  unfold applyReceiptToInventory
  unfold findInventory
  cases hfi : db.inventory.find? (fun i => i.item_id == iid) with
  | some i =>
    dsimp only
    refine ledger_bump db _ iid (fun v => v + incoming) incoming
      ⟨iid, .receipt, incoming, r, n, c⟩ hled ?_ (fun _ _ _ => rfl)
      rfl rfl rfl rfl
    have h1 : i ∈ db.inventory := List.mem_of_find?_eq_some hfi
    have h2 : i.item_id = iid := by
      have := List.find?_some hfi
      simpa using this
    exact ⟨i, h1, h2⟩
  | none =>
    dsimp only
    have hn := List.find?_eq_none.mp hfi
    have hnotin : iid ∉ db.inventory.map (fun i => i.item_id) := by
      intro hc
      obtain ⟨i, hi, hix⟩ := List.mem_map.mp hc
      exact hn i hi (by rw [hix]; simp)
    obtain ⟨hnd, hsum, hex⟩ := hled
    have hled1 : LedgerOk { db with inventory := db.inventory ++ [⟨iid, 0⟩] } := by
      refine ⟨?_, ?_, ?_⟩
      · show ((db.inventory ++ [(⟨iid, 0⟩ : InventoryItem)]).map
          (fun i => i.item_id)).Nodup
        rw [List.map_append]
        simp only [List.nodup_append]
        refine ⟨hnd, by simp, ?_⟩
        intro x hx
        simp only [List.map_cons, List.map_nil, List.mem_singleton]
        intro hxe
        exact hnotin (hxe ▸ hx)
      · intro i hi
        rcases List.mem_append.mp hi with hi' | hi'
        · exact hsum i hi'
        · have : i = ⟨iid, 0⟩ := by simpa using hi'
          subst this
          show (0 : Int) = sumDeltas db iid
          rw [sumDeltas_of_no_row db iid hex hfi]
      · intro t ht
        obtain ⟨i, hi, hid⟩ := hex t ht
        exact ⟨i, List.mem_append_left _ hi, hid⟩
    refine ledger_bump { db with inventory := db.inventory ++ [⟨iid, 0⟩] } _
      iid (fun v => v + incoming) incoming
      ⟨iid, .receipt, incoming, r, n, c⟩ hled1 ?_ (fun _ _ _ => rfl)
      rfl rfl rfl rfl
    exact ⟨⟨iid, 0⟩, List.mem_append_right _ (by simp), rfl⟩

/-- The quantity loop of partial receiving preserves the invariant: it
only rewrites order lines and posts receipts through
`applyReceiptToInventory`. -/
theorem receiveLoop_ledger (m : List (Int × Int)) (u : String) (oid : Int) :
    ∀ (ls : List PurchaseOrderLine) (db : DB) (out : LoopOut),
      LedgerOk db → receiveLoop m u oid db ls = .ok out →
      LedgerOk out.db := by
  intro ls
  induction ls with
  | nil =>
    intro db out hled h
    unfold receiveLoop at h
    injection h with h'
    rw [← h']
    exact hled
  | cons line rest ih =>
    intro db out hled h
    unfold receiveLoop at h
    dsimp only at h
    split at h
    · obtain ⟨o, ho, rfl⟩ := exceptMap_ok h
      exact ih db o hled ho
    · split at h
      · obtain ⟨o, ho, rfl⟩ := exceptMap_ok h
        exact ih db o hled ho
      · split at h
        · obtain ⟨o, ho, rfl⟩ := exceptMap_ok h
          exact ih db o hled ho
        · split at h
          · exact Except.noConfusion h
          · obtain ⟨o, ho, rfl⟩ := exceptMap_ok h
            refine ih _ o ?_ ho
            split
            · exact applyReceiptToInventory_ledger _ _ _ _ _ _
                (ledgerOk_of_eq db _ rfl rfl hled)
            · exact ledgerOk_of_eq db _ rfl rfl hled

/-- The post-loop tail of partial receiving (status write and pricing
phase) leaves inventory and ledger untouched. -/
theorem receiveFinish_ledger (order : PurchaseOrder) (pd nt : String)
    (lp : List (Int × Option Int)) (u : String) (out : LoopOut)
    (db' : DB) (res : ReceiveResult)
    (hled : LedgerOk out.db)
    (h : receiveFinish order pd nt lp u out = .ok (db', res)) :
    LedgerOk db' := by
  unfold receiveFinish at h
  dsimp only at h
  split at h
  · exact Except.noConfusion h
  injection h with h'
  rw [Prod.mk.injEq] at h'
  obtain ⟨hdb, hres⟩ := h'
  rw [← hdb]
  split
  · exact ledgerOk_of_eq _ _
      (pricingFold_fields order pd nt lp u out.processed _).2.2.1
      (pricingFold_fields order pd nt lp u out.processed _).2.2.2
      (ledgerOk_of_eq out.db _ rfl rfl hled)
  · exact ledgerOk_of_eq out.db _ rfl rfl hled

theorem receiveOrder_ledger (db : DB) (orderId : Int) (u : String)
    (m : List (Int × Int)) (dd dn : Option String)
    (lp : List (Int × Option Int)) (db' : DB) (res : ReceiveResult)
    (hled : LedgerOk db)
    (h : receiveOrder db orderId u m dd dn lp = .ok (db', res)) :
    LedgerOk db' := by
  unfold receiveOrder at h
  cases hfo : findOrder db orderId with
  | none =>
    rw [hfo] at h
    exact Except.noConfusion h
  | some order =>
    rw [hfo] at h
    dsimp only at h
    split at h
    · exact Except.noConfusion h
    split at h
    · exact Except.noConfusion h
    split at h
    · exact Except.noConfusion h
    split at h
    · exact Except.noConfusion h
    split at h
    · exact Except.noConfusion h
    split at h
    · exact Except.noConfusion h
    split at h
    · exact Except.noConfusion h
    split at h
    · exact Except.noConfusion h
    cases hloop : receiveLoop m u order.id db (linesOf db order.id) with
    | error e =>
      rw [hloop] at h
      exact Except.noConfusion h
    | ok out =>
      rw [hloop] at h
      exact receiveFinish_ledger order _ _ lp u out db' res
        (receiveLoop_ledger m u order.id (linesOf db order.id) db out hled hloop) h

theorem applyFullReceipt_fold_ledger (oid : Int) (u : String) :
    ∀ (ls : List PurchaseOrderLine) (db : DB), LedgerOk db →
      LedgerOk (ls.foldl (fun db line =>
        let received := max 0 line.received_quantity
        let remaining := max 0 (line.quantity - received)
        if remaining ≤ 0 then db
        else
          let db := { db with orderLines := db.orderLines.map (fun x =>
            if x.id == line.id then { x with received_quantity := received + remaining }
            else x) }
          match line.item_id with
          | some iid =>
            if iid == 0 then db
            else
              applyReceiptToInventory db iid remaining
                ("発注#" ++ toString oid ++ " 納品計上") "発注管理"
                (defaultCreatedBy u)
          | none => db) db) := by
  intro ls
  induction ls with
  | nil =>
    intro db hled
    exact hled
  | cons line rest ih =>
    intro db hled
    rw [List.foldl_cons]
    refine ih _ ?_
    dsimp only
    split
    · exact hled
    · split
      · split
        · exact ledgerOk_of_eq db _ rfl rfl hled
        · exact applyReceiptToInventory_ledger _ _ _ _ _ _
            (ledgerOk_of_eq db _ rfl rfl hled)
      · exact ledgerOk_of_eq db _ rfl rfl hled

theorem applyFullReceipt_ledger (db : DB) (oid : Int) (u : String)
    (hled : LedgerOk db) : LedgerOk (applyFullReceipt db oid u) := by
  unfold applyFullReceipt
  exact applyFullReceipt_fold_ledger oid u (linesOf db oid) db hled

theorem update_order_status_ledger (db : DB) (orderId : Int)
    (target u : String) (db' : DB) (res : StatusResult)
    (hled : LedgerOk db)
    (h : update_order_status db orderId target u = .ok (db', res)) :
    LedgerOk db' := by
  unfold update_order_status at h
  cases hfo : findOrder db orderId with
  | none =>
    rw [hfo] at h
    exact Except.noConfusion h
  | some order =>
    rw [hfo] at h
    cases hns : statusOfString (pyUpper (pyStrip target)) with
    | none =>
      rw [hns] at h
      exact Except.noConfusion h
    | some normalized =>
      rw [hns] at h
      dsimp only at h
      split at h
      · injection h with h'
        rw [Prod.mk.injEq] at h'
        rw [← h'.1]
        exact hled
      split at h
      · exact Except.noConfusion h
      split at h
      · injection h with h'
        rw [Prod.mk.injEq] at h'
        rw [← h'.1]
        exact ledgerOk_of_eq db _ rfl rfl hled
      · injection h with h'
        rw [Prod.mk.injEq] at h'
        rw [← h'.1]
        refine ledgerOk_of_eq
          (if normalized = OrderStatus.RECEIVED then
            applyFullReceipt db order.id u else db) _ rfl rfl ?_
        split
        · exact applyFullReceipt_ledger db order.id u hled
        · exact hled

theorem api_receipt_ledger (db : DB) (c : String) (q : Int) (r u : String)
    (db' : DB) (hled : LedgerOk db)
    (h : api_inventory_receipt db c q r u = .ok db') :
    LedgerOk db' ∧ ∃ t, db'.transactions = db.transactions ++ [t] ∧
      onHandOf db' t.item_id = onHandOf db t.item_id + t.delta := by
  unfold api_inventory_receipt at h
  split at h
  · exact Except.noConfusion h
  cases hfind : db.items.find? (fun i => decide (i.item_code = c)) with
  | none =>
    rw [hfind] at h
    exact Except.noConfusion h
  | some item =>
    rw [hfind] at h
    dsimp only at h
    unfold findInventory at h
    cases hfi : db.inventory.find? (fun i => i.item_id == item.id) with
    | none =>
      rw [hfi] at h
      exact Except.noConfusion h
    | some i0 =>
      rw [hfi] at h
      dsimp only at h
      injection h with h'
      have hrow : ∃ i ∈ db.inventory, i.item_id = item.id := by
        have h1 : i0 ∈ db.inventory := List.mem_of_find?_eq_some hfi
        have h2 : i0.item_id = item.id := by
          have := List.find?_some hfi
          simpa using this
        exact ⟨i0, h1, h2⟩
      have hled' : LedgerOk db' := by
        rw [← h']
        exact ledger_bump db _ item.id (fun v => v + q) q
          ⟨item.id, .receipt, q, r, "", u⟩ hled hrow (fun _ _ _ => rfl)
          rfl rfl rfl rfl
      refine ⟨hled', ⟨item.id, .receipt, q, r, "", u⟩, ?_, ?_⟩
      · rw [← h']
      · rw [onHand_eq_sumDeltas db' _ hled', onHand_eq_sumDeltas db _ hled,
          sumDeltas_append db db' _ (by rw [← h'])]
        dsimp only
        rw [if_pos (by simp)]

theorem api_issue_ledger (db : DB) (c : String) (q : Int) (r u : String)
    (db' : DB) (hled : LedgerOk db)
    (h : api_inventory_issue db c q r u = .ok db') :
    LedgerOk db' ∧ ∃ t, db'.transactions = db.transactions ++ [t] ∧
      onHandOf db' t.item_id = onHandOf db t.item_id + t.delta := by
  unfold api_inventory_issue at h
  split at h
  · exact Except.noConfusion h
  cases hfind : db.items.find? (fun i => decide (i.item_code = c)) with
  | none =>
    rw [hfind] at h
    exact Except.noConfusion h
  | some item =>
    rw [hfind] at h
    dsimp only at h
    unfold findInventory at h
    cases hfi : db.inventory.find? (fun i => i.item_id == item.id) with
    | none =>
      rw [hfi] at h
      exact Except.noConfusion h
    | some i0 =>
      rw [hfi] at h
      dsimp only at h
      split at h
      · exact Except.noConfusion h
      injection h with h'
      have hrow : ∃ i ∈ db.inventory, i.item_id = item.id := by
        have h1 : i0 ∈ db.inventory := List.mem_of_find?_eq_some hfi
        have h2 : i0.item_id = item.id := by
          have := List.find?_some hfi
          simpa using this
        exact ⟨i0, h1, h2⟩
      have hled' : LedgerOk db' := by
        rw [← h']
        exact ledger_bump db _ item.id (fun v => v - q) (-q)
          ⟨item.id, .issue, -q, r, "", u⟩ hled hrow
          (fun _ _ _ => Int.sub_eq_add_neg)
          rfl rfl rfl rfl
      refine ⟨hled', ⟨item.id, .issue, -q, r, "", u⟩, ?_, ?_⟩
      · rw [← h']
      · rw [onHand_eq_sumDeltas db' _ hled', onHand_eq_sumDeltas db _ hled,
          sumDeltas_append db db' _ (by rw [← h'])]
        dsimp only
        rw [if_pos (by simp)]

theorem api_adjustment_ledger (db : DB) (c : String) (d : Int) (r u : String)
    (db' : DB) (hled : LedgerOk db)
    (h : api_inventory_adjustment db c d r u = .ok db') :
    LedgerOk db' ∧ ∃ t, db'.transactions = db.transactions ++ [t] ∧
      onHandOf db' t.item_id = onHandOf db t.item_id + t.delta := by
  unfold api_inventory_adjustment at h
  split at h
  · exact Except.noConfusion h
  cases hfind : db.items.find? (fun i => decide (i.item_code = c)) with
  | none =>
    rw [hfind] at h
    exact Except.noConfusion h
  | some item =>
    rw [hfind] at h
    dsimp only at h
    unfold findInventory at h
    cases hfi : db.inventory.find? (fun i => i.item_id == item.id) with
    | none =>
      rw [hfi] at h
      exact Except.noConfusion h
    | some i0 =>
      rw [hfi] at h
      dsimp only at h
      split at h
      · exact Except.noConfusion h
      injection h with h'
      have h1 : i0 ∈ db.inventory := List.mem_of_find?_eq_some hfi
      have h2 : i0.item_id = item.id := by
        have := List.find?_some hfi
        simpa using this
      have hrow : ∃ i ∈ db.inventory, i.item_id = item.id := ⟨i0, h1, h2⟩
      have hg : ∀ i ∈ db.inventory, i.item_id = item.id →
          i0.quantity_on_hand + d = i.quantity_on_hand + d := by
        intro i hi hii
        have hiq : i = i0 :=
          List.inj_on_of_nodup_map hled.1 hi h1 (by rw [hii, h2])
        rw [hiq]
      have hled' : LedgerOk db' := by
        rw [← h']
        exact ledger_bump db _ item.id (fun _ => i0.quantity_on_hand + d) d
          ⟨item.id, .adjust, d,
            (if pyStrip r = "" then "在庫調整" else pyStrip r),
            "入出庫管理", u⟩ hled hrow hg
          rfl rfl rfl rfl
      refine ⟨hled', ⟨item.id, .adjust, d,
        (if pyStrip r = "" then "在庫調整" else pyStrip r),
        "入出庫管理", u⟩, ?_, ?_⟩
      · rw [← h']
      · rw [onHand_eq_sumDeltas db' _ hled', onHand_eq_sumDeltas db _ hled,
          sumDeltas_append db db' _ (by rw [← h'])]
        dsimp only
        rw [if_pos (by simp)]

/-- A raised error leaves the committed store unchanged; a successful
operation preserves the invariant. -/
theorem applyOp_ledger (db : DB) (op : Op) (hled : LedgerOk db) :
    LedgerOk (applyOp db op) := by
  cases op with
  | apiReceipt c q r u =>
    unfold applyOp
    dsimp only
    cases hh : api_inventory_receipt db c q r u with
    | ok db2 => exact (api_receipt_ledger db c q r u db2 hled hh).1
    | error e => exact hled
  | apiIssue c q r u =>
    unfold applyOp
    dsimp only
    cases hh : api_inventory_issue db c q r u with
    | ok db2 => exact (api_issue_ledger db c q r u db2 hled hh).1
    | error e => exact hled
  | apiAdjust c d r u =>
    unfold applyOp
    dsimp only
    cases hh : api_inventory_adjustment db c d r u with
    | ok db2 => exact (api_adjustment_ledger db c d r u db2 hled hh).1
    | error e => exact hled
  | orderStatus oid t u =>
    unfold applyOp
    dsimp only
    cases hh : update_order_status db oid t u with
    | ok p => exact update_order_status_ledger db oid t u p.1 p.2 hled hh
    | error e => exact hled
  | orderReceive oid u lr dd dn lp =>
    unfold applyOp
    dsimp only
    cases hh : receiveOrder db oid u lr dd dn lp with
    | ok p => exact receiveOrder_ledger db oid u lr dd dn lp p.1 p.2 hled hh
    | error e => exact hled

theorem foldl_applyOp_ledger (ops : List Op) :
    ∀ db : DB, LedgerOk db → LedgerOk (ops.foldl applyOp db) := by
  induction ops with
  | nil =>
    intro db h
    exact h
  | cons op rest ih =>
    intro db h
    rw [List.foldl_cons]
    exact ih _ (applyOp_ledger db op h)

/-- C7: starting from a store satisfying the ledger invariant, any
sequence of issue / receipt / adjustment / status-change / partial
receiving operations preserves it (for every item the stored on-hand
quantity equals the running sum of that item's ledger deltas; failed
operations leave the store unchanged); moreover each on-hand posting
appends exactly one ledger row whose delta equals the on-hand change:
the inventory posting of receiving appends one receipt row, and each
successful inventory API call appends one row whose delta is the change
to that item's on-hand. -/
theorem ledger_invariant (db : DB) (ops : List Op) (hled : LedgerOk db) :
    LedgerOk (ops.foldl applyOp db) ∧
    (∀ iid inc r n c,
      (applyReceiptToInventory db iid inc r n c).transactions =
        db.transactions ++ [⟨iid, .receipt, inc, r, n, c⟩] ∧
      onHandOf (applyReceiptToInventory db iid inc r n c) iid =
        onHandOf db iid + inc) ∧
    (∀ c q r u db', api_inventory_receipt db c q r u = .ok db' →
      ∃ t, db'.transactions = db.transactions ++ [t] ∧
        onHandOf db' t.item_id = onHandOf db t.item_id + t.delta) ∧
    (∀ c q r u db', api_inventory_issue db c q r u = .ok db' →
      ∃ t, db'.transactions = db.transactions ++ [t] ∧
        onHandOf db' t.item_id = onHandOf db t.item_id + t.delta) ∧
    (∀ c d r u db', api_inventory_adjustment db c d r u = .ok db' →
      ∃ t, db'.transactions = db.transactions ++ [t] ∧
        onHandOf db' t.item_id = onHandOf db t.item_id + t.delta) := by
  refine ⟨foldl_applyOp_ledger ops db hled, ?_, ?_, ?_, ?_⟩
  · intro iid inc r n c
    have htr : (applyReceiptToInventory db iid inc r n c).transactions =
        db.transactions ++ [⟨iid, .receipt, inc, r, n, c⟩] := by
      unfold applyReceiptToInventory
      cases hfi : findInventory db iid <;> rfl
    refine ⟨htr, ?_⟩
    have hled' := applyReceiptToInventory_ledger db iid inc r n c hled
    rw [onHand_eq_sumDeltas _ _ hled', onHand_eq_sumDeltas db _ hled,
      sumDeltas_append db _ ⟨iid, .receipt, inc, r, n, c⟩ htr]
    dsimp only
    rw [if_pos (by simp)]
  · intro c q r u db' h
    exact (api_receipt_ledger db c q r u db' hled h).2
  · intro c q r u db' h
    exact (api_issue_ledger db c q r u db' hled h).2
  · intro c d r u db' h
    exact (api_adjustment_ledger db c d r u db' hled h).2

theorem ledger_invariant_witness :
    LedgerOk ([Op.apiReceipt "X-1" 3 "in" "u", Op.apiIssue "X-1" 2 "out" "u",
      Op.apiAdjust "X-1" (-1) "" "u",
      Op.orderReceive 1 "u" [(100, 4)] (some "2026-02-01") (some "DN-1") [],
      Op.orderStatus 1 "RECEIVED" "u"].foldl applyOp fixtureA) :=
  (ledger_invariant fixtureA
    [Op.apiReceipt "X-1" 3 "in" "u", Op.apiIssue "X-1" 2 "out" "u",
      Op.apiAdjust "X-1" (-1) "" "u",
      Op.orderReceive 1 "u" [(100, 4)] (some "2026-02-01") (some "DN-1") [],
      Op.orderStatus 1 "RECEIVED" "u"] (by decide)).1

/-! ## C5 -/

/-- C5: (1) when a non-cancelled order of the same supplier, department
and ordering user created inside the duplicate window carries the same
line signature, `create_order` returns that existing order's id with
`reused = true` and writes nothing; (2) the payload signature is
invariant under permutation of the lines; (3) when every such
signature-equal order lies outside the window, a new order is created
(`reused = false`, a fresh DRAFT row with the lowest unused id). -/
theorem create_order_duplicate_suppression (db : DB) (now windowSeconds : Int)
    (sid : Int) (dept user : String) (lines : List PayloadLine) :
    ((∃ o ∈ db.orders, o.supplier_id = sid ∧ o.department = dept ∧
        o.ordered_by_user = user ∧ now - max 1 windowSeconds ≤ o.created_at ∧
        ¬ o.status = OrderStatus.CANCELLED ∧
        signatureFromOrder db o = signatureFromPayload lines) →
      ∃ o ∈ db.orders,
        createOrderNormalized db now windowSeconds sid dept user lines =
          (db, ⟨o.id, o.status, o.department, true⟩) ∧
        o.supplier_id = sid ∧ o.department = dept ∧ o.ordered_by_user = user ∧
        now - max 1 windowSeconds ≤ o.created_at ∧
        ¬ o.status = OrderStatus.CANCELLED ∧
        signatureFromOrder db o = signatureFromPayload lines) ∧
    (∀ l₁ l₂ : List PayloadLine, l₁.Perm l₂ →
      signatureFromPayload l₁ = signatureFromPayload l₂) ∧
    ((∀ o ∈ db.orders, o.supplier_id = sid → o.department = dept →
        o.ordered_by_user = user → ¬ o.status = OrderStatus.CANCELLED →
        signatureFromOrder db o = signatureFromPayload lines →
        o.created_at < now - max 1 windowSeconds) →
      (createOrderNormalized db now windowSeconds sid dept user lines).2.reused
          = false ∧
      (createOrderNormalized db now windowSeconds sid dept user lines).1.orders =
        db.orders ++ [⟨allocateReusableOrderId db, sid, dept, user, .DRAFT, now⟩]) := by
  have hcand : ∀ o : PurchaseOrder,
      o ∈ List.insertionSort createdDescRel (db.orders.filter (fun o =>
        o.supplier_id == sid && decide (o.department = dept) &&
        decide (o.ordered_by_user = user) &&
        decide (now - max 1 windowSeconds ≤ o.created_at) &&
        !(o.status == OrderStatus.CANCELLED))) ↔
      (o ∈ db.orders ∧ o.supplier_id = sid ∧ o.department = dept ∧
        o.ordered_by_user = user ∧ now - max 1 windowSeconds ≤ o.created_at ∧
        ¬ o.status = OrderStatus.CANCELLED) := by
    intro o
    rw [(List.perm_insertionSort createdDescRel _).mem_iff, List.mem_filter]
    simp [and_assoc]
  refine ⟨?_, ?_, ?_⟩
  · rintro ⟨o, ho, hsup, hdept, huser, hwin, hnc, hsig⟩
    have hmemsorted := (hcand o).mpr ⟨ho, hsup, hdept, huser, hwin, hnc⟩
    have hsome : (List.insertionSort createdDescRel (db.orders.filter (fun o =>
        o.supplier_id == sid && decide (o.department = dept) &&
        decide (o.ordered_by_user = user) &&
        decide (now - max 1 windowSeconds ≤ o.created_at) &&
        !(o.status == OrderStatus.CANCELLED)))).find? (fun c =>
          decide (signatureFromOrder db c = signatureFromPayload lines))
          |>.isSome := by
      rw [List.find?_isSome]
      exact ⟨o, hmemsorted, by simpa using hsig⟩
    rcases Option.isSome_iff_exists.mp hsome with ⟨c, hc⟩
    have hcmem := List.mem_of_find?_eq_some hc
    have hcsig : signatureFromOrder db c = signatureFromPayload lines := by
      simpa using List.find?_some hc
    rcases (hcand c).mp hcmem with ⟨hcm, hcs, hcd, hcu, hcw, hcnc⟩
    refine ⟨c, hcm, ?_, hcs, hcd, hcu, hcw, hcnc, hcsig⟩
    unfold createOrderNormalized findRecentDuplicateOrder
    rw [hc]
  · intro l₁ l₂ hperm
    exact sortSignature_eq_of_perm (hperm.map sigOfPayloadLine)
  · intro hall
    have hnone : (List.insertionSort createdDescRel (db.orders.filter (fun o =>
        o.supplier_id == sid && decide (o.department = dept) &&
        decide (o.ordered_by_user = user) &&
        decide (now - max 1 windowSeconds ≤ o.created_at) &&
        !(o.status == OrderStatus.CANCELLED)))).find? (fun c =>
          decide (signatureFromOrder db c = signatureFromPayload lines)) = none := by
      rw [List.find?_eq_none]
      intro x hx
      rcases (hcand x).mp hx with ⟨hxm, hxs, hxd, hxu, hxw, hxnc⟩
      simp only [decide_eq_true_eq]
      intro hxsig
      exact absurd hxw (not_le.mpr (hall x hxm hxs hxd hxu hxnc hxsig))
    constructor
    · unfold createOrderNormalized findRecentDuplicateOrder
      rw [hnone]
    · unfold createOrderNormalized findRecentDuplicateOrder
      rw [hnone]

theorem create_order_duplicate_suppression_witness :
    (∃ o ∈ fixtureA.orders, o.supplier_id = 1 ∧ o.department = "dept" ∧
      o.ordered_by_user = "user" ∧ (1060 : Int) - max 1 120 ≤ o.created_at ∧
      ¬ o.status = OrderStatus.CANCELLED ∧
      signatureFromOrder fixtureA o =
        signatureFromPayload [⟨some 10, "", "", 10, ""⟩]) ∧
    (∃ o ∈ fixtureA.orders,
      createOrderNormalized fixtureA 1060 120 1 "dept" "user"
          [⟨some 10, "", "", 10, ""⟩] =
        (fixtureA, ⟨o.id, o.status, o.department, true⟩) ∧
      o.supplier_id = 1 ∧ o.department = "dept" ∧ o.ordered_by_user = "user" ∧
      (1060 : Int) - max 1 120 ≤ o.created_at ∧
      ¬ o.status = OrderStatus.CANCELLED ∧
      signatureFromOrder fixtureA o =
        signatureFromPayload [⟨some 10, "", "", 10, ""⟩]) :=
  ⟨by decide,
    (create_order_duplicate_suppression fixtureA 1060 120 1 "dept" "user"
      [⟨some 10, "", "", 10, ""⟩]).1 (by decide)⟩

/-! ## C8 -/

/-- C8: both the order-creation resolution and the receiving resolution
compute the spec's precedence — explicit per-call override, else the
ItemSupplier row's price for the (item, supplier) pair, else the item's
own default unit price, else absent — for every combination of
present/absent values at each level; a free-text line (no catalog item,
so no pair price and no item default) resolves to the override alone. -/
theorem resolve_unit_price_precedence :
    (∀ (override : Option Int) (rows : List ItemSupplier) (sid : Int)
        (itemDefault : Option Int),
      resolveUnitPriceOnCreate override rows sid itemDefault =
        resolveUnitPriceSpec override
          ((rows.find? (fun r => r.supplier_id == sid)).map (fun r => r.unit_price))
          itemDefault) ∧
    (∀ (pairPrice : Option (Option Int)) (itemDefault override : Option Int),
      resolveUnitPriceOnReceive pairPrice itemDefault override =
        resolveUnitPriceSpec override pairPrice itemDefault) ∧
    (∀ override : Option Int, resolveUnitPriceSpec override none none = override) := by
  refine ⟨?_, ?_, ?_⟩
  · intro override rows sid itemDefault
    cases override with
    | some p => rfl
    | none =>
      cases hf : rows.find? (fun r => r.supplier_id == sid) with
      | none => simp [resolveUnitPriceOnCreate, resolveUnitPriceSpec, hf]
      | some row =>
        cases hup : row.unit_price with
        | none => simp [resolveUnitPriceOnCreate, resolveUnitPriceSpec, hf, hup]
        | some q => simp [resolveUnitPriceOnCreate, resolveUnitPriceSpec, hf, hup]
  · intro pairPrice itemDefault override
    cases override with
    | none =>
      cases pairPrice with
      | none => rfl
      | some p => cases p <;> rfl
    | some op =>
      cases pairPrice with
      | none =>
        cases itemDefault with
        | none => simp [resolveUnitPriceOnReceive, resolveUnitPriceSpec]
        | some d =>
          by_cases h : op = d
          · subst h
            simp [resolveUnitPriceOnReceive, resolveUnitPriceSpec]
          · simp [resolveUnitPriceOnReceive, resolveUnitPriceSpec, h]
      | some p =>
        cases p with
        | none =>
          cases itemDefault with
          | none => simp [resolveUnitPriceOnReceive, resolveUnitPriceSpec]
          | some d =>
            by_cases h : op = d
            · subst h
              simp [resolveUnitPriceOnReceive, resolveUnitPriceSpec]
            · simp [resolveUnitPriceOnReceive, resolveUnitPriceSpec, h]
        | some q =>
          by_cases h : op = q
          · subst h
            simp [resolveUnitPriceOnReceive, resolveUnitPriceSpec]
          · simp [resolveUnitPriceOnReceive, resolveUnitPriceSpec, h]
  · intro override
    cases override <;> rfl

/-! ## C9 -/

/-- C9 counterexample: a PENDING request that already has a staged
supplier is re-staged by `stage_unmanaged_requests` instead of failing
with the not-eligible error — the already-staged check the claim
describes does not exist in the code. -/
theorem stage_restages_staged_request :
    (∃ r ∈ fixtureStage.requests,
      r.status = ReqStatus.PENDING ∧ r.staged_supplier_id = some 1) ∧
    stage_unmanaged_requests fixtureStage [7] 2 99 = .ok (fixtureStageOut, 1) ∧
    (∃ r ∈ fixtureStageOut.requests, r.staged_supplier_id = some 2) :=
  ⟨by decide, by decide, by decide⟩

theorem stage_filter_length_eq (db : DB) (ids : List Int)
    (hidnd : ids.Nodup) (hrnd : (db.requests.map (fun r => r.id)).Nodup)
    (hall : ∀ i ∈ ids, ∃ r ∈ db.requests, r.id = i ∧ r.status = ReqStatus.PENDING) :
    (db.requests.filter (fun r =>
      decide (r.id ∈ ids) && decide (r.status = ReqStatus.PENDING))).length =
      ids.length := by
  set P : UnmanagedOrderRequest → Bool := fun r =>
    decide (r.id ∈ ids) && decide (r.status = ReqStatus.PENDING) with hP
  have hsl : (db.requests.filter P).Sublist db.requests :=
    List.filter_sublist db.requests
  have hselnd : ((db.requests.filter P).map (fun r => r.id)).Nodup :=
    (hsl.map (fun r => r.id)).nodup hrnd
  have hsub1 : (db.requests.filter P).map (fun r => r.id) ⊆ ids := by
    intro x hx
    rcases List.mem_map.mp hx with ⟨r, hr, rfl⟩
    rcases List.mem_filter.mp hr with ⟨_, hPr⟩
    simp only [hP, Bool.and_eq_true, decide_eq_true_eq] at hPr
    exact hPr.1
  have hsub2 : ids ⊆ (db.requests.filter P).map (fun r => r.id) := by
    intro i hi
    rcases hall i hi with ⟨r, hr, hid, hpend⟩
    refine List.mem_map.mpr ⟨r, List.mem_filter.mpr ⟨hr, ?_⟩, hid⟩
    simp only [hP, Bool.and_eq_true, decide_eq_true_eq]
    exact ⟨hid ▸ hi, hpend⟩
  have h1 : (db.requests.filter P).length ≤ ids.length := by
    calc (db.requests.filter P).length
        = ((db.requests.filter P).map (fun r => r.id)).length := by
          rw [List.length_map]
      _ = ((db.requests.filter P).map (fun r => r.id)).toFinset.card :=
          (List.toFinset_card_of_nodup hselnd).symm
      _ ≤ ids.toFinset.card := Finset.card_le_card (fun x hx => by
          rw [List.mem_toFinset] at hx ⊢
          exact hsub1 hx)
      _ ≤ ids.length := List.toFinset_card_le ids
  have h2 : ids.length ≤ (db.requests.filter P).length := by
    calc ids.length = ids.toFinset.card := (List.toFinset_card_of_nodup hidnd).symm
      _ ≤ ((db.requests.filter P).map (fun r => r.id)).toFinset.card :=
          Finset.card_le_card (fun x hx => by
            rw [List.mem_toFinset] at hx ⊢
            exact hsub2 hx)
      _ ≤ ((db.requests.filter P).map (fun r => r.id)).length :=
          List.toFinset_card_le _
      _ = (db.requests.filter P).length := List.length_map _ _
  exact le_antisymm h1 h2

theorem stage_filter_length_lt (db : DB) (ids : List Int)
    (hrnd : (db.requests.map (fun r => r.id)).Nodup)
    {i : Int} (hi : i ∈ ids)
    (hnone : ∀ r ∈ db.requests, r.id = i → ¬ r.status = ReqStatus.PENDING) :
    (db.requests.filter (fun r =>
      decide (r.id ∈ ids) && decide (r.status = ReqStatus.PENDING))).length <
      ids.length := by
  set P : UnmanagedOrderRequest → Bool := fun r =>
    decide (r.id ∈ ids) && decide (r.status = ReqStatus.PENDING) with hP
  have hsl : (db.requests.filter P).Sublist db.requests :=
    List.filter_sublist db.requests
  have hselnd : ((db.requests.filter P).map (fun r => r.id)).Nodup :=
    (hsl.map (fun r => r.id)).nodup hrnd
  have hsub : (db.requests.filter P).map (fun r => r.id) ⊆ ids.erase i := by
    intro x hx
    rcases List.mem_map.mp hx with ⟨r, hr, rfl⟩
    rcases List.mem_filter.mp hr with ⟨hrm, hPr⟩
    simp only [hP, Bool.and_eq_true, decide_eq_true_eq] at hPr
    have hne : r.id ≠ i := fun hc => hnone r hrm hc hPr.2
    exact (List.mem_erase_of_ne hne).mpr hPr.1
  have hlen : (db.requests.filter P).length ≤ (ids.erase i).length := by
    calc (db.requests.filter P).length
        = ((db.requests.filter P).map (fun r => r.id)).length := by
          rw [List.length_map]
      _ = ((db.requests.filter P).map (fun r => r.id)).toFinset.card :=
          (List.toFinset_card_of_nodup hselnd).symm
      _ ≤ (ids.erase i).toFinset.card := Finset.card_le_card (fun x hx => by
          rw [List.mem_toFinset] at hx ⊢
          exact hsub hx)
      _ ≤ (ids.erase i).length := List.toFinset_card_le _
  have : (ids.erase i).length < ids.length := by
    rw [List.length_erase_of_mem hi]
    have : 0 < ids.length := List.length_pos.mpr (List.ne_nil_of_mem hi)
    omega
  omega

/-- C9 (amended): `stage_unmanaged_requests` fails with the not-eligible
error exactly when some referenced id has no PENDING request (missing or
already processed); an already-staged PENDING request is NOT rejected —
it is simply re-staged: every referenced request is assigned the chosen
supplier and the staging timestamp, and nothing is staged on failure. -/
theorem stage_unmanaged_requests_eligibility (db : DB) (ids : List Int)
    (sid : Int) (now : Int)
    (hne : ids ≠ []) (hsup : supplierExists db sid = true)
    (hidnd : ids.Nodup) (hrnd : (db.requests.map (fun r => r.id)).Nodup) :
    ((∀ i ∈ ids, ∃ r ∈ db.requests, r.id = i ∧ r.status = ReqStatus.PENDING) →
      stage_unmanaged_requests db ids sid now =
        .ok ({ db with requests := db.requests.map (fun r =>
            if decide (r.id ∈ ids) && decide (r.status = ReqStatus.PENDING) then
              { r with staged_supplier_id := some sid, staged_at := some now }
            else r) }, ids.length)) ∧
    ((∃ i ∈ ids, ∀ r ∈ db.requests, r.id = i → ¬ r.status = ReqStatus.PENDING) →
      stage_unmanaged_requests db ids sid now = .error .notEligible) := by
  have hempty : ids.isEmpty = false := by
    cases ids with
    | nil => exact absurd rfl hne
    | cons a t => rfl
  constructor
  · intro hall
    have hlen := stage_filter_length_eq db ids hidnd hrnd hall
    unfold stage_unmanaged_requests
    rw [hempty]
    simp [hsup, hlen]
  · rintro ⟨i, hi, hnone⟩
    have hlen := stage_filter_length_lt db ids hrnd hi hnone
    unfold stage_unmanaged_requests
    rw [hempty]
    simp [hsup, Nat.ne_of_lt hlen]

theorem stage_unmanaged_requests_eligibility_witness :
    (([7] : List Int) ≠ [] ∧ supplierExists fixtureStage 2 = true ∧
      ([7] : List Int).Nodup ∧
      (fixtureStage.requests.map (fun r => r.id)).Nodup ∧
      (∀ i ∈ ([7] : List Int), ∃ r ∈ fixtureStage.requests,
        r.id = i ∧ r.status = ReqStatus.PENDING)) ∧
    stage_unmanaged_requests fixtureStage [7] 2 99 =
      .ok ({ fixtureStage with requests := fixtureStage.requests.map (fun r =>
          if decide (r.id ∈ ([7] : List Int)) &&
              decide (r.status = ReqStatus.PENDING) then
            { r with staged_supplier_id := some 2, staged_at := some 99 }
          else r) }, ([7] : List Int).length) :=
  ⟨⟨by decide, by decide, by decide, by decide, by decide⟩,
    (stage_unmanaged_requests_eligibility fixtureStage [7] 2 99
      (by decide) (by decide) (by decide) (by decide)).1 (by decide)⟩

theorem update_order_status_table_witness :
    ((fixtureDraft.orders.map (fun x => x.id)).Nodup ∧
      (⟨1, 1, "dept", "user", .DRAFT, 1000⟩ : PurchaseOrder) ∈ fixtureDraft.orders) ∧
    ((exceptOk (update_order_status fixtureDraft 1
        (statusValue OrderStatus.CONFIRMED) "u") = true ↔
      (OrderStatus.CONFIRMED ∈ allowedTargets OrderStatus.DRAFT ∨
        OrderStatus.CONFIRMED = OrderStatus.DRAFT)) ∧
    (¬ (OrderStatus.CONFIRMED ∈ allowedTargets OrderStatus.DRAFT ∨
        OrderStatus.CONFIRMED = OrderStatus.DRAFT) →
      update_order_status fixtureDraft 1 (statusValue OrderStatus.CONFIRMED) "u" =
        .error .invalidTransition)) :=
  ⟨by decide,
    update_order_status_table fixtureDraft
      ⟨1, 1, "dept", "user", .DRAFT, 1000⟩ OrderStatus.CONFIRMED "u"
      (by decide) (by decide)⟩

end PMS
